import Mathlib

/-!
# Verification of the CCS streaming protocol bridge

Shallow embedding of the core streaming components of the `ccs` repository:

* `SSEParser`        (src/bin/sse-parser.js)
* `DeltaAccumulator` (src/bin/delta-accumulator.js, together with the tool-call
                      extensions of the newer copy embedded in
                      src/bin/glmt-transformer.js)
* `GlmtTransformer`  (src/bin/glmt-transformer.js): the streaming delta
                      transformer (`transformDelta` / `finalizeDelta`) and the
                      buffered request transformer (`transformRequest`).

JavaScript mutable objects are modelled by explicit state passing; a JS
`throw` is modelled by `Except.error` (paired with the post-mutation state
where the source mutates before throwing); JS truthiness on strings and
numbers (`""` and `0` are falsy) is modelled by the `jsOr*` helpers below.
External environment calls (`crypto.createHash`, `Date.now`) are modelled as
parameters of the definitions that use them.
-/

namespace CCS

/-- JS `a || b` for an optional number, where `0` is falsy
(`usage.prompt_tokens || usage.input_tokens || 0`). -/
def jsOrNat (a : Option Nat) (b : Nat) : Nat :=
  match a with
  | some n => if n = 0 then b else n
  | none => b

/-- JS `a || b` for an optional string, where `""` is falsy. -/
def jsOrStr (a : Option String) (b : String) : String :=
  match a with
  | some s => if s = "" then b else s
  | none => b

/-- JS truthiness of an optional string field: present and non-empty. -/
def jsTruthyStr (a : Option String) : Bool :=
  match a with
  | some s => s ≠ ""
  | none => false

/-! ## Data model: content blocks and tool calls -/

/-- Block kind: `'thinking' | 'text' | 'tool_use'` (startBlock doc comment in
the accumulator). The streaming transformer only ever starts `thinking` and
`text` blocks. -/
inductive BlockType
  | thinking
  | text
  | tool_use
deriving DecidableEq, Repr

/-- A content block as created by `DeltaAccumulator.startBlock`. -/
structure ContentBlock where
  index : Int
  type : BlockType
  content : String
  started : Bool
  stopped : Bool
deriving DecidableEq, Repr

/-- Accumulated tool call entry (`addToolCallDelta` in the accumulator copy
embedded in src/bin/glmt-transformer.js). -/
structure ToolCall where
  index : Int
  id : String
  type : String
  name : String
  arguments : String
deriving DecidableEq, Repr

/-- Usage object from an upstream payload: either `{prompt_tokens,
completion_tokens}` or `{input_tokens, output_tokens}` naming. -/
structure Usage where
  prompt_tokens : Option Nat
  completion_tokens : Option Nat
  input_tokens : Option Nat
  output_tokens : Option Nat
deriving DecidableEq, Repr

/-! ## DeltaAccumulator (src/bin/delta-accumulator.js) -/

/-- The accumulator state (`DeltaAccumulator` constructor fields). The
message id (`Date.now()` + random suffix in JS) is a construction parameter. -/
structure DeltaAccumulator where
  messageId : String
  model : Option String
  role : String
  contentBlocks : List ContentBlock
  currentBlockIndex : Int
  toolCalls : List ToolCall
  thinkingBuffer : String
  textBuffer : String
  maxBlocks : Nat
  maxBufferSize : Nat
  messageStarted : Bool
  finalized : Bool
  usageReceived : Bool
  inputTokens : Nat
  outputTokens : Nat
  finishReason : Option String
deriving DecidableEq, Repr

/-- Fresh accumulator: `new DeltaAccumulator(thinkingConfig, options)`.
`options.maxBlocks || 100` and `options.maxBufferSize || 10*1024*1024`
use JS `||` (so an explicit 0 falls back to the default). -/
def mkDeltaAccumulator (messageId : String)
    (optMaxBlocks : Option Nat := none) (optMaxBufferSize : Option Nat := none) :
    DeltaAccumulator :=
  { messageId := messageId
    model := none
    role := "assistant"
    contentBlocks := []
    currentBlockIndex := -1
    toolCalls := []
    thinkingBuffer := ""
    textBuffer := ""
    maxBlocks := jsOrNat optMaxBlocks 100
    maxBufferSize := jsOrNat optMaxBufferSize (10 * 1024 * 1024)
    messageStarted := false
    finalized := false
    usageReceived := false
    inputTokens := 0
    outputTokens := 0
    finishReason := none }

namespace DeltaAccumulator

/-- `getCurrentBlock()`: the block at `currentBlockIndex` when that index is
in range, else null. -/
def getCurrentBlock (acc : DeltaAccumulator) : Option ContentBlock :=
  if 0 ≤ acc.currentBlockIndex ∧ acc.currentBlockIndex < acc.contentBlocks.length then
    acc.contentBlocks[acc.currentBlockIndex.toNat]?
  else
    none

/-- `startBlock(type)`: throws once `contentBlocks.length >= maxBlocks`;
otherwise increments `currentBlockIndex`, pushes a fresh block and resets
that kind's working buffer. Returns the new block with the new state. -/
def startBlock (acc : DeltaAccumulator) (type : BlockType) :
    Except String (ContentBlock × DeltaAccumulator) :=
  if acc.contentBlocks.length ≥ acc.maxBlocks then
    .error ("Maximum " ++ toString acc.maxBlocks ++ " content blocks exceeded (DoS protection)")
  else
    let idx := acc.currentBlockIndex + 1
    let block : ContentBlock :=
      { index := idx, type := type, content := "", started := true, stopped := false }
    .ok (block,
      { acc with
        currentBlockIndex := idx
        contentBlocks := acc.contentBlocks ++ [block]
        thinkingBuffer := if type = .thinking then "" else acc.thinkingBuffer
        textBuffer := if type = .text then "" else acc.textBuffer })

/-- Replace the block at `currentBlockIndex` (the object mutated through the
`getCurrentBlock()` reference in JS). -/
def setCurrentBlock (acc : DeltaAccumulator) (b : ContentBlock) : DeltaAccumulator :=
  { acc with contentBlocks := acc.contentBlocks.set acc.currentBlockIndex.toNat b }

/-- `addDelta(delta)`: no open block is a logged no-op; a `thinking` / `text`
block appends to that kind's working buffer after the size check and copies
the buffer into the block's `content`; the size check throws before any
mutation, so an overflow leaves the state unchanged. -/
def addDelta (acc : DeltaAccumulator) (delta : String) : Except String DeltaAccumulator :=
  match acc.getCurrentBlock with
  | none => .ok acc
  | some block =>
    match block.type with
    | .thinking =>
      if acc.thinkingBuffer.length + delta.length > acc.maxBufferSize then
        .error ("Thinking buffer exceeded " ++ toString acc.maxBufferSize
          ++ " bytes (DoS protection)")
      else
        let buf := acc.thinkingBuffer ++ delta
        .ok ({ acc with thinkingBuffer := buf }.setCurrentBlock { block with content := buf })
    | .text =>
      if acc.textBuffer.length + delta.length > acc.maxBufferSize then
        .error ("Text buffer exceeded " ++ toString acc.maxBufferSize
          ++ " bytes (DoS protection)")
      else
        let buf := acc.textBuffer ++ delta
        .ok ({ acc with textBuffer := buf }.setCurrentBlock { block with content := buf })
    | .tool_use => .ok acc

/-- `stopCurrentBlock()`: sets `stopped = true` on the open block if any. -/
def stopCurrentBlock (acc : DeltaAccumulator) : DeltaAccumulator :=
  match acc.getCurrentBlock with
  | none => acc
  | some block => acc.setCurrentBlock { block with stopped := true }

/-- `updateUsage(usage)` on a present usage object: JS `||` chains where 0 is
falsy, plus the `usageReceived` flag. -/
def updateUsage (acc : DeltaAccumulator) (usage : Usage) : DeltaAccumulator :=
  { acc with
    inputTokens := jsOrNat usage.prompt_tokens (jsOrNat usage.input_tokens 0)
    outputTokens := jsOrNat usage.completion_tokens (jsOrNat usage.output_tokens 0)
    usageReceived := true }

end DeltaAccumulator

/-! ## Upstream (OpenAI-style) event shapes -/

/-- Fragment of `delta.tool_calls[i].function`. -/
structure FunctionDelta where
  name : Option String
  arguments : Option String
deriving DecidableEq, Repr

/-- One entry of `delta.tool_calls`. -/
structure ToolCallDelta where
  index : Int
  id : Option String
  type : Option String
  function : Option FunctionDelta
deriving DecidableEq, Repr

/-- `choices[i].delta` of an upstream chunk. -/
structure OpenAIDelta where
  role : Option String
  content : Option String
  reasoning_content : Option String
  tool_calls : Option (List ToolCallDelta)
deriving DecidableEq, Repr

/-- `choices[i]` of an upstream chunk. -/
structure Choice where
  delta : Option OpenAIDelta
  finish_reason : Option String
deriving DecidableEq, Repr

/-- The JSON payload of an upstream data frame, in the delta shape the
transformer consumes. -/
structure EventData where
  choices : List Choice
  model : Option String
  usage : Option Usage
deriving DecidableEq, Repr

/-- A parsed upstream event as produced by `SSEParser.parse`: `data == null`
with event name `done` is the completion sentinel. The payload type is a
parameter so that the parser is independent of the JSON representation. -/
structure UpstreamEvent (J : Type) where
  event : String
  data : Option J
  index : Nat
  id : Option String := none
  retry : Option Int := none
deriving DecidableEq, Repr

namespace DeltaAccumulator

/-- One update of a tool call entry by `addToolCallDelta`: `id` and `type`
are overwritten when (truthily) present, `function.name` and
`function.arguments` are appended. -/
def applyToolCallDelta (t : ToolCall) (tcd : ToolCallDelta) : ToolCall :=
  let t1 := if jsTruthyStr tcd.id then { t with id := tcd.id.getD "" } else t
  let t2 := if jsTruthyStr tcd.type then { t1 with type := tcd.type.getD "" } else t1
  let t3 :=
    match tcd.function with
    | some f =>
      let ta := if jsTruthyStr f.name then { t2 with name := t2.name ++ f.name.getD "" } else t2
      if jsTruthyStr f.arguments then
        { ta with arguments := ta.arguments ++ f.arguments.getD "" }
      else ta
    | none => t2
  t3

/-- `addToolCallDelta(toolCallDelta)`: keyed by `toolCallDelta.index`; a
fresh entry `{index, id:'', type:'function', function:{name:'',
arguments:''}}` is pushed on first sight, then id/type are overwritten and
name/argument fragments concatenated. -/
def addToolCallDelta (acc : DeltaAccumulator) (tcd : ToolCallDelta) : DeltaAccumulator :=
  let base :=
    if acc.toolCalls.any (fun t => t.index = tcd.index) then acc.toolCalls
    else acc.toolCalls ++ [{ index := tcd.index, id := "", type := "function",
                             name := "", arguments := "" }]
  { acc with toolCalls :=
      base.map (fun t => if t.index = tcd.index then applyToolCallDelta t tcd else t) }

end DeltaAccumulator

/-! ## SSEParser (src/bin/sse-parser.js) -/

/-- Parser state: carry-over `buffer`, emitted-event counter, and the frame
buffer cap (`options.maxBufferSize || 1024*1024`). -/
structure SSEParser where
  buffer : String
  eventCount : Nat
  maxBufferSize : Nat
deriving DecidableEq, Repr

/-- `new SSEParser(options)`. -/
def mkSSEParser (optMaxBufferSize : Option Nat := none) : SSEParser :=
  { buffer := "", eventCount := 0, maxBufferSize := jsOrNat optMaxBufferSize (1024 * 1024) }

/-- JS `s.split('\n')` over the character list (byte-position based string
primitives of core Lean do not reduce definitionally, so the string
operations of the source are modelled on `String.data`; for the
single-character separator this is the same function as `String.splitOn`). -/
def splitNLChars : List Char → List String
  | [] => [""]
  | c :: rest =>
    let r := splitNLChars rest
    if c = '\n' then "" :: r
    else
      match r with
      | [] => [String.mk [c]]
      | h :: t => String.mk (c :: h.data) :: t

/-- JS `s.split('\n')`. -/
def jsSplitNL (s : String) : List String := splitNLChars s.data

/-- JS `s.startsWith(pre)`. -/
def jsStartsWith (s pre : String) : Bool := pre.data.isPrefixOf s.data

/-- JS `s.substring(n)` for ASCII input (`String.prototype.substring` counts
UTF-16 units; all recognized SSE prefixes are ASCII). -/
def jsDrop (s : String) (n : Nat) : String := String.mk (s.data.drop n)

/-- JS `s.trim()`. -/
def jsTrim (s : String) : String :=
  String.mk (((s.data.dropWhile Char.isWhitespace).reverse.dropWhile Char.isWhitespace).reverse)

/-- JS `parseInt(s, 10)`: skip leading whitespace, optional sign, longest
digit prefix; `none` models `NaN`. -/
def jsParseInt (s : String) : Option Int :=
  let t := s.data.dropWhile Char.isWhitespace
  let signed : Bool × List Char :=
    match t with
    | '-' :: rest => (true, rest)
    | '+' :: rest => (false, rest)
    | _ => (false, t)
  let digits := signed.2.takeWhile Char.isDigit
  if digits = [] then none
  else
    let n := digits.foldl (fun (acc : Nat) c => acc * 10 + (c.toNat - 48)) 0
    some (if signed.1 then -(n : Int) else (n : Int))

/-- In-progress event during a `parse` call
(`currentEvent = \x7b event: 'message', data: '' \x7d` plus optional id/retry). -/
structure CurrentEvent where
  event : String := "message"
  id : Option String := none
  retry : Option Int := none
deriving DecidableEq, Repr

namespace SSEParser

/-- Process one complete line of the frame buffer (the body of the `for`
loop in `parse`). `jsonParse` stands for `JSON.parse`: `none` is a thrown
`SyntaxError`, on which the line is logged and dropped. -/
def processLine {J : Type} (jsonParse : String → Option J)
    (st : List (UpstreamEvent J) × CurrentEvent × Nat) (line : String) :
    List (UpstreamEvent J) × CurrentEvent × Nat :=
  let (events, cur, count) := st
  if jsStartsWith line "event: " then
    (events, { cur with event := jsTrim (jsDrop line 7) }, count)
  else if jsStartsWith line "data: " then
    let data := jsDrop line 6
    if data = "[DONE]" then
      (events ++ [{ event := "done", data := none, index := count + 1 }],
       {}, count + 1)
    else
      match jsonParse data with
      | some j =>
        (events ++ [{ event := cur.event, data := some j, index := count + 1,
                      id := cur.id, retry := cur.retry }],
         {}, count + 1)
      | none => (events, cur, count)
  else if jsStartsWith line "id: " then
    (events, { cur with id := some (jsTrim (jsDrop line 4)) }, count)
  else if jsStartsWith line "retry: " then
    (events, { cur with retry := jsParseInt (jsDrop line 7) }, count)
  else
    (events, cur, count)

/-- `parse(chunk)`: appends the chunk to the carry-over buffer, throws if the
buffer now exceeds `maxBufferSize` (note the buffer mutation happens before
the throw, so the oversized buffer is retained in the returned state), splits
on newlines keeping the last (incomplete) line buffered, and folds
`processLine` over the complete lines. -/
def parse {J : Type} (jsonParse : String → Option J)
    (p : SSEParser) (chunk : String) :
    Except String (List (UpstreamEvent J)) × SSEParser :=
  let buf := p.buffer ++ chunk
  if buf.length > p.maxBufferSize then
    (.error ("SSE buffer exceeded " ++ toString p.maxBufferSize ++ " bytes (DoS protection)"),
     { p with buffer := buf })
  else
    let lines := jsSplitNL buf
    let buffer' := (lines.getLast?).getD ""
    let body := lines.dropLast
    let (events, _, count) := body.foldl (processLine jsonParse) ([], {}, p.eventCount)
    (.ok events, { p with buffer := buffer', eventCount := count })

/-- `reset()`: clears buffer and counter for reuse. -/
def reset (p : SSEParser) : SSEParser :=
  { p with buffer := "", eventCount := 0 }

end SSEParser

/-! ## GlmtTransformer: streaming path (src/bin/glmt-transformer.js) -/

/-- The `signature` payload of a `signature_delta` event
(`_generateThinkingSignature`): truncated hash of the block content plus its
length and a timestamp. The sha256 of `crypto` and `Date.now()` are
environment parameters (`hashFn`, `now`) of the transformer functions. -/
structure ThinkingSignature where
  hash : String
  length : Nat
  timestamp : Nat
deriving DecidableEq, Repr

/-- `_generateThinkingSignature(thinking)` with the crypto hash abstracted
as `hashFn` (JS: sha256 hex digest truncated to 16 chars). -/
def generateThinkingSignature (hashFn : String → String) (now : Nat)
    (thinking : String) : ThinkingSignature :=
  { hash := hashFn thinking, length := thinking.length, timestamp := now }

/-- Downstream (Anthropic-style) events with the payload fields the bridge
emits (`_create*Event` helpers and `finalizeDelta`). -/
inductive DownstreamEvent
  | message_start (id : String) (role : String) (model : String)
      (input_tokens output_tokens : Nat)
  | content_block_start (index : Int) (type : BlockType)
  | content_block_delta_thinking (index : Int) (thinking : String)
  | content_block_delta_text (index : Int) (text : String)
  | signature_delta (index : Int) (signature : ThinkingSignature)
  | content_block_stop (index : Int)
  | message_delta (stop_reason : String) (output_tokens : Nat)
  | message_stop
deriving DecidableEq, Repr

/-- `_mapStopReason(openaiReason)`: fixed table with `end_turn` default. -/
def mapStopReason (openaiReason : String) : String :=
  if openaiReason = "stop" then "end_turn"
  else if openaiReason = "length" then "max_tokens"
  else if openaiReason = "tool_calls" then "tool_use"
  else if openaiReason = "content_filter" then "stop_sequence"
  else "end_turn"

/-- `_createMessageStartEvent(accumulator)`: carries the message identity,
current role, `model || 'glm-4.6'`, accumulated input tokens and zero output
tokens. -/
def createMessageStartEvent (acc : DeltaAccumulator) : DownstreamEvent :=
  .message_start acc.messageId acc.role (jsOrStr acc.model "glm-4.6") acc.inputTokens 0

/-- `finalizeDelta(accumulator)`: no-op once `finalized`; otherwise closes an
unstopped open block (signature first for a thinking block), emits
`message_delta` with the mapped `finishReason || 'stop'` and the accumulated
output tokens, emits `message_stop` and sets `finalized`. -/
def finalizeDelta (hashFn : String → String) (now : Nat)
    (acc : DeltaAccumulator) : List DownstreamEvent × DeltaAccumulator :=
  if acc.finalized then ([], acc)
  else
    let res : List DownstreamEvent × DeltaAccumulator :=
      match acc.getCurrentBlock with
      | some b =>
        if ¬b.stopped then
          ((if b.type = .thinking then
              [.signature_delta b.index (generateThinkingSignature hashFn now b.content)]
            else []) ++ [.content_block_stop b.index],
           acc.stopCurrentBlock)
        else ([], acc)
      | none => ([], acc)
    let (closeEvents, acc1) := res
    (closeEvents
      ++ [.message_delta (mapStopReason (jsOrStr acc.finishReason "stop")) acc1.outputTokens,
          .message_stop],
     { acc1 with finalized := true })

/-- Does the current block force starting a fresh block of kind `k`?
(`!currentBlock || currentBlock.type !== k`). -/
def needStartBlock (acc : DeltaAccumulator) (k : BlockType) : Bool :=
  match acc.getCurrentBlock with
  | none => true
  | some b => b.type ≠ k

/-- Start a fresh block of kind `k` and emit its `content_block_start` when
`needStart` holds, else do nothing. -/
def ensureBlock (acc : DeltaAccumulator) (k : BlockType) (needStart : Bool) :
    Except String (List DownstreamEvent × DeltaAccumulator) :=
  if needStart then
    match acc.startBlock k with
    | .error e => .error e
    | .ok (b, acc') => .ok ([.content_block_start b.index b.type], acc')
  else .ok ([], acc)

/-- Append the delta to the current block and emit the tagged
`content_block_delta` (the source re-reads `accumulator.getCurrentBlock()`
for the event, throwing a TypeError were it null). -/
def appendAndEmit (acc : DeltaAccumulator) (d : String)
    (mkEvent : Int → String → DownstreamEvent) :
    Except String (List DownstreamEvent) × DeltaAccumulator :=
  match acc.addDelta d with
  | .error e => (.error e, acc)
  | .ok acc' =>
    match acc'.getCurrentBlock with
    | some b => (.ok [mkEvent b.index d], acc')
    | none => (.error "TypeError: current block is null", acc')

/-- The `delta.reasoning_content` branch of `transformDelta`. On a thrown
resource-limit error the events of the aborted call are lost but the
accumulator mutations made so far persist, hence the paired state. -/
def reasoningBranch (_hashFn : String → String) (_now : Nat)
    (delta : OpenAIDelta) (acc : DeltaAccumulator) :
    Except String (List DownstreamEvent) × DeltaAccumulator :=
  match delta.reasoning_content with
  | none => (.ok [], acc)
  | some rc =>
    if rc = "" then (.ok [], acc)
    else
      match ensureBlock acc .thinking (needStartBlock acc .thinking) with
      | .error e => (.error e, acc)
      | .ok (startEvents, acc1) =>
        match appendAndEmit acc1 rc (fun i s => .content_block_delta_thinking i s) with
        | (.error e, acc2) => (.error e, acc2)
        | (.ok deltaEvents, acc2) => (.ok (startEvents ++ deltaEvents), acc2)

/-- The closing step of the `delta.content` branch: an unstopped thinking
block gets its signature event, its `content_block_stop`, and is marked
stopped before any text block opens. -/
def closeThinkingIfOpen (hashFn : String → String) (now : Nat)
    (acc : DeltaAccumulator) : List DownstreamEvent × DeltaAccumulator :=
  match acc.getCurrentBlock with
  | some b =>
    if b.type = .thinking ∧ ¬b.stopped then
      ([.signature_delta b.index (generateThinkingSignature hashFn now b.content),
        .content_block_stop b.index],
       acc.stopCurrentBlock)
    else ([], acc)
  | none => ([], acc)

/-- The `delta.content` branch of `transformDelta`: first closes an unstopped
thinking block (signature + stop), then opens a text block if needed, then
appends and emits the text delta. -/
def textBranch (hashFn : String → String) (now : Nat)
    (delta : OpenAIDelta) (acc : DeltaAccumulator) :
    Except String (List DownstreamEvent) × DeltaAccumulator :=
  match delta.content with
  | none => (.ok [], acc)
  | some tc =>
    if tc = "" then (.ok [], acc)
    else
      let (closeEvents, acc1) := closeThinkingIfOpen hashFn now acc
      match ensureBlock acc1 .text (needStartBlock acc1 .text) with
      | .error e => (.error e, acc1)
      | .ok (startEvents, acc2) =>
        match appendAndEmit acc2 tc (fun i s => .content_block_delta_text i s) with
        | (.error e, acc3) => (.error e, acc3)
        | (.ok deltaEvents, acc3) =>
          (.ok (closeEvents ++ startEvents ++ deltaEvents), acc3)

/-- The message-start step of `transformDelta`: on the first delta, record
the payload's model (when truthy) and emit `message_start`. -/
def messageStartStep (acc : DeltaAccumulator) (data : EventData) :
    List DownstreamEvent × DeltaAccumulator :=
  if acc.messageStarted then ([], acc)
  else
    let accm :=
      if jsTruthyStr data.model then { acc with model := data.model } else acc
    ([createMessageStartEvent accm], { accm with messageStarted := true })

/-- The role step of `transformDelta`: record a (truthy) `delta.role`. -/
def roleStep (acc : DeltaAccumulator) (delta : OpenAIDelta) : DeltaAccumulator :=
  if jsTruthyStr delta.role then { acc with role := delta.role.getD "" } else acc

/-- The usage step of `transformDelta`: store a present usage payload. -/
def usageStep (acc : DeltaAccumulator) (data : EventData) : DeltaAccumulator :=
  match data.usage with
  | some u => acc.updateUsage u
  | none => acc

/-- The finish-reason step of `transformDelta`: record a truthy
`finish_reason`. -/
def finishStep (acc : DeltaAccumulator) (choice : Choice) : DeltaAccumulator :=
  if jsTruthyStr choice.finish_reason then
    { acc with finishReason := choice.finish_reason }
  else acc

/-- `transformDelta(openaiEvent, accumulator)`: the streaming state machine.
A `done` event runs `finalizeDelta`; a payload without a first choice or
without a `delta` object is ignored; otherwise the message-start, role,
reasoning, text, usage and finish-reason steps run in source order. Note
that this function reads no `delta.tool_calls` field (the source ignores
tool-call fragments entirely). -/
def transformDelta (hashFn : String → String) (now : Nat)
    (ev : UpstreamEvent EventData) (acc : DeltaAccumulator) :
    Except String (List DownstreamEvent) × DeltaAccumulator :=
  if ev.event = "done" then
    let (events, acc') := finalizeDelta hashFn now acc
    (.ok events, acc')
  else
    match ev.data with
    | none => (.ok [], acc)
    | some data =>
      match data.choices.head? with
      | none => (.ok [], acc)
      | some choice =>
        match choice.delta with
        | none => (.ok [], acc)
        | some delta =>
          let (startEvents, acc0) := messageStartStep acc data
          let acc1 := roleStep acc0 delta
          match reasoningBranch hashFn now delta acc1 with
          | (.error e, accr) => (.error e, accr)
          | (.ok reasoningEvents, acc2) =>
            match textBranch hashFn now delta acc2 with
            | (.error e, acct) => (.error e, acct)
            | (.ok textEvents, acc3) =>
              let acc4 := usageStep acc3 data
              let acc5 := finishStep acc4 choice
              (.ok (startEvents ++ reasoningEvents ++ textEvents), acc5)

/-- Drive `transformDelta` over a list of upstream events from a given
accumulator state; a thrown error aborts the stream, leaving the state the
mutations have reached. -/
def runDeltas (hashFn : String → String) (now : Nat)
    (evs : List (UpstreamEvent EventData)) (acc : DeltaAccumulator) : DeltaAccumulator :=
  match evs with
  | [] => acc
  | e :: rest =>
    match transformDelta hashFn now e acc with
    | (.ok _, acc') => runDeltas hashFn now rest acc'
    | (.error _, acc') => acc'

/-- Like `runDeltas` but also collects the downstream events of the
successful calls, in emission order (events of an aborted call are lost). -/
def runDeltasEvents (hashFn : String → String) (now : Nat)
    (evs : List (UpstreamEvent EventData)) (acc : DeltaAccumulator) :
    List DownstreamEvent × DeltaAccumulator :=
  match evs with
  | [] => ([], acc)
  | e :: rest =>
    match transformDelta hashFn now e acc with
    | (.ok events, acc') =>
      let (more, accf) := runDeltasEvents hashFn now rest acc'
      (events ++ more, accf)
    | (.error _, acc') => ([], acc')

/-- Number of open blocks (started and not stopped) in the accumulator. -/
def openCount (acc : DeltaAccumulator) : Nat :=
  (acc.contentBlocks.filter (fun b => b.started ∧ ¬b.stopped)).length

/-! ## GlmtTransformer: buffered request path (`transformRequest`)

The request body is dynamic JSON in the source; the variants below model the
shapes the code distinguishes, including `null` entries whose field accesses
throw a `TypeError` (the failure mode the catch-all of `transformRequest`
recovers from). JS numeric fields are modelled as rationals. -/

/-- One entry of a structured `msg.content` array (`\x7btype, text\x7d`), or
`null` (whose `.type` access throws). -/
inductive JBlock
  | null
  | obj (type : Option String) (text : Option String)
deriving DecidableEq, Repr

/-- The `content` field of a message: a plain string, a structured array,
`null`/absent, JS `undefined`, or some other non-string non-array value. -/
inductive JContent
  | null
  | undef
  | str (s : String)
  | arr (blocks : List JBlock)
  | other
deriving DecidableEq, Repr

/-- One entry of `messages`: an object with `role`/`content`, or `null`
(whose field accesses throw). -/
inductive JMsg
  | null
  | obj (role : Option String) (content : JContent)
deriving DecidableEq, Repr

/-- Directive config extracted from the messages
(`\x7b thinking, effort \x7d`; the error fallback of `transformRequest`
records only `thinking:false`, hence the optional effort). -/
structure ThinkingConfig where
  thinking : Bool
  effort : Option String
deriving DecidableEq, Repr

/-- Character index of the first occurrence of `pat` in `s`, if any. -/
def firstIdx (s pat : String) : Option Nat :=
  let parts := s.splitOn pat
  if parts.length ≤ 1 then none else some (parts.headD "").length

/-- First match of `/<Thinking:(On|Off)>/i` in `s`: `true` for `On`. -/
def matchThinkingTag (s : String) : Option Bool :=
  let ls := s.toLower
  match firstIdx ls "<thinking:on>", firstIdx ls "<thinking:off>" with
  | some i, some j => if i ≤ j then some true else some false
  | some _, none => some true
  | none, some _ => some false
  | none, none => none

/-- First match of `/<Effort:(Low|Medium|High)>/i` in `s`, lower-cased. -/
def matchEffortTag (s : String) : Option String :=
  let ls := s.toLower
  let cands : List (String × Option Nat) :=
    [("low", firstIdx ls "<effort:low>"),
     ("medium", firstIdx ls "<effort:medium>"),
     ("high", firstIdx ls "<effort:high>")]
  let best := cands.foldl
    (fun best c =>
      match best, c.2 with
      | none, some j => some (c.1, j)
      | some (b, i), some j => if j < i then some (c.1, j) else some (b, i)
      | b, none => b)
    none
  best.map (fun p => p.1)

/-- `_extractThinkingControl(messages)`: scans user messages with plain
string content for the control tags; the last matching directive wins; a
`null` message entry throws a `TypeError` on the `msg.role` access. -/
def extractThinkingControl (defaultThinking : Bool) (messages : List JMsg) :
    Except String ThinkingConfig :=
  messages.foldlM
    (fun cfg msg =>
      match msg with
      | .null => .error "TypeError: Cannot read properties of null (reading role)"
      | .obj role content =>
        if role = some "user" then
          match content with
          | .str s =>
            let cfg1 :=
              match matchThinkingTag s with
              | some b => { cfg with thinking := b }
              | none => cfg
            let cfg2 :=
              match matchEffortTag s with
              | some e => { cfg1 with effort := some e }
              | none => cfg1
            .ok cfg2
          | _ => .ok cfg
        else .ok cfg)
    { thinking := defaultThinking, effort := some "medium" }

/-- `_sanitizeMessages(messages)`: strings pass through; structured arrays
are filtered to `text` blocks (a `null` array entry throws on the
`block.type` access), an empty result collapses to `''`, a singleton text
block collapses to its text (JS `undefined` when the block has no `text`
field); a `null` message throws on the `msg.content` access. -/
def sanitizeMessages (messages : List JMsg) : Except String (List JMsg) :=
  messages.mapM
    (fun msg =>
      match msg with
      | .null => .error "TypeError: Cannot read properties of null (reading content)"
      | .obj role content =>
        match content with
        | .str _ => .ok msg
        | .arr blocks => do
          let kept ← blocks.foldlM
            (fun (kept : List JBlock) b =>
              match b with
              | .null => .error "TypeError: Cannot read properties of null (reading type)"
              | .obj type _ =>
                if type = some "text" then .ok (kept ++ [b]) else .ok kept)
            []
          match kept with
          | [] => .ok (.obj role (.str ""))
          | [.obj _ text] =>
            .ok (.obj role (match text with | some t => .str t | none => .undef))
          | _ => .ok (.obj role (.arr kept))
        | _ => .ok msg)

/-- `_mapModel(anthropicModel)`: always GLM-4.6. -/
def mapModel (_anthropicModel : Option String) : String := "GLM-4.6"

/-- `_getMaxTokens(model)` via the `modelMaxTokens` table, default 128000. -/
def getMaxTokens (model : String) : Nat :=
  if model = "GLM-4.6" then 128000
  else if model = "GLM-4.5" then 96000
  else if model = "GLM-4.5-air" then 16000
  else 128000

/-- Anthropic-side request fields read by `transformRequest`. -/
structure AnthropicRequest where
  model : Option String
  messages : Option (List JMsg)
  stream : Option Bool
  temperature : Option ℚ
  top_p : Option ℚ
deriving DecidableEq, Repr

/-- Translated OpenAI-side request built by `transformRequest`. -/
structure OpenAIRequest where
  model : String
  messages : List JMsg
  max_tokens : Nat
  stream : Bool
  temperature : Option ℚ
  top_p : Option ℚ
  do_sample : Bool
  reasoning : Option Bool
  reasoning_effort : Option String
deriving DecidableEq, Repr

/-- `_injectReasoningParams(openaiRequest, thinkingConfig)`: always sets
`do_sample`; adds `reasoning`/`reasoning_effort` when thinking is enabled. -/
def injectReasoningParams (req : OpenAIRequest) (cfg : ThinkingConfig) : OpenAIRequest :=
  let req1 := { req with do_sample := true }
  if cfg.thinking then
    { req1 with reasoning := some true, reasoning_effort := cfg.effort }
  else req1

/-- The `try` body of `transformRequest`: directive extraction, model
mapping, message sanitization, optional-parameter passthrough and reasoning
parameter injection, any of which may throw. -/
def transformRequestBody (defaultThinking : Bool) (req : AnthropicRequest) :
    Except String (OpenAIRequest × ThinkingConfig) := do
  let cfg ← extractThinkingControl defaultThinking (req.messages.getD [])
  let glmModel := mapModel req.model
  let msgs ← sanitizeMessages (req.messages.getD [])
  let base : OpenAIRequest :=
    { model := glmModel
      messages := msgs
      max_tokens := getMaxTokens glmModel
      stream := req.stream.getD false
      temperature := req.temperature
      top_p := req.top_p
      do_sample := false
      reasoning := none
      reasoning_effort := none }
  return (injectReasoningParams base cfg, cfg)

/-- The `openaiRequest` field of the result: the translated request on
success, the unmodified original on failure. -/
inductive RequestOut
  | translated (o : OpenAIRequest)
  | original (r : AnthropicRequest)
deriving DecidableEq, Repr

/-- Result shape of `transformRequest`. -/
structure TransformRequestResult where
  openaiRequest : RequestOut
  thinkingConfig : ThinkingConfig
  error : Option String
deriving DecidableEq, Repr

/-- `transformRequest(anthropicRequest)`: runs the body and catches any
thrown error, falling back to the original request with
`\x7b thinking: false \x7d` recorded. -/
def transformRequest (defaultThinking : Bool) (req : AnthropicRequest) :
    TransformRequestResult :=
  match transformRequestBody defaultThinking req with
  | .ok (o, cfg) =>
    { openaiRequest := .translated o, thinkingConfig := cfg, error := none }
  | .error e =>
    { openaiRequest := .original req
      thinkingConfig := { thinking := false, effort := none }
      error := some e }

/-! ## Helper lemmas -/

/-- An already-finalized accumulator makes `finalizeDelta` a no-op. -/
theorem finalizeDelta_of_finalized (hashFn : String → String) (now : Nat)
    (acc : DeltaAccumulator) (h : acc.finalized = true) :
    finalizeDelta hashFn now acc = ([], acc) := by
  simp [finalizeDelta, h]

/-- `finalizeDelta` always leaves the `finalized` flag set. -/
theorem finalizeDelta_finalized (hashFn : String → String) (now : Nat)
    (acc : DeltaAccumulator) : (finalizeDelta hashFn now acc).2.finalized = true := by
  by_cases h : acc.finalized
  · simp [finalizeDelta, h]
  · simp only [finalizeDelta, h, if_neg]
    rfl

/-! ## C4: Finalize idempotence -/

/-- C4: `finalizeDelta` is idempotent: one call sets `finalized = true`, and
a second call on the resulting accumulator returns no events and leaves the
state unchanged (for every accumulator state). -/
theorem finalize_idempotent (hashFn : String → String) (now : Nat)
    (acc : DeltaAccumulator) :
    (finalizeDelta hashFn now acc).2.finalized = true ∧
    finalizeDelta hashFn now (finalizeDelta hashFn now acc).2 =
      ([], (finalizeDelta hashFn now acc).2) := by
  refine ⟨finalizeDelta_finalized hashFn now acc, ?_⟩
  exact finalizeDelta_of_finalized hashFn now _ (finalizeDelta_finalized hashFn now acc)

/-! ## C5: per-block buffer bound enforcement -/

/-- C5: when the open block is a thinking (resp. text) block and the delta
would push the corresponding working buffer past `maxBufferSize`, `addDelta`
throws the resource-limit error. The error result carries no successor
state: the caller's accumulator — in particular the block's `content` and
the working buffer — is exactly the pre-overflow value. -/
theorem addDelta_overflow (acc : DeltaAccumulator) (d : String) (b : ContentBlock)
    (hb : acc.getCurrentBlock = some b) :
    (b.type = .thinking →
      acc.thinkingBuffer.length + d.length > acc.maxBufferSize →
      acc.addDelta d = .error ("Thinking buffer exceeded " ++ toString acc.maxBufferSize
        ++ " bytes (DoS protection)")) ∧
    (b.type = .text →
      acc.textBuffer.length + d.length > acc.maxBufferSize →
      acc.addDelta d = .error ("Text buffer exceeded " ++ toString acc.maxBufferSize
        ++ " bytes (DoS protection)")) := by
  constructor
  · intro ht hover
    simp [DeltaAccumulator.addDelta, hb, ht, hover]
  · intro ht hover
    simp [DeltaAccumulator.addDelta, hb, ht, hover]

/-- Concrete accumulator with an open thinking block holding two characters
and a 3-byte buffer limit. -/
def overflowAcc : DeltaAccumulator :=
  { mkDeltaAccumulator "w" none (some 3) with
    contentBlocks := [{ index := 0, type := .thinking, content := "ab",
                        started := true, stopped := false }]
    currentBlockIndex := 0
    thinkingBuffer := "ab" }

/-- Witness for C5: appending two more characters to the two-character
buffer with `maxBufferSize = 3` produces the resource-limit error. -/
theorem addDelta_overflow_witness :
    overflowAcc.addDelta "cd" =
      .error "Thinking buffer exceeded 3 bytes (DoS protection)" := by
  exact (addDelta_overflow overflowAcc "cd"
    { index := 0, type := .thinking, content := "ab", started := true, stopped := false }
    (by decide)).1 (by decide) (by decide)

/-! ## C7: block-count bound enforcement -/

/-- Iterate `startBlock` n times (Scenario C of the spec). -/
def startBlockN : Nat → DeltaAccumulator → Except String DeltaAccumulator
  | 0, acc => .ok acc
  | n + 1, acc =>
    match acc.startBlock .text with
    | .ok (_, acc') => startBlockN n acc'
    | .error e => .error e

set_option maxRecDepth 8000 in
/-- C7: `startBlock` throws the resource-limit error once the block count
equals `maxBlocks`, and below the limit appends exactly one fresh block and
advances the open-index; in particular 101 calls on a default accumulator
(`maxBlocks = 100`) fail on the 101st call with exactly 100 blocks
recorded. -/
theorem startBlock_limit (acc : DeltaAccumulator) (t : BlockType) :
    (acc.contentBlocks.length = acc.maxBlocks →
      acc.startBlock t = .error ("Maximum " ++ toString acc.maxBlocks
        ++ " content blocks exceeded (DoS protection)")) ∧
    (acc.contentBlocks.length < acc.maxBlocks →
      acc.startBlock t =
        .ok ({ index := acc.currentBlockIndex + 1, type := t, content := "",
               started := true, stopped := false },
             { acc with
               currentBlockIndex := acc.currentBlockIndex + 1
               contentBlocks := acc.contentBlocks ++
                 [{ index := acc.currentBlockIndex + 1, type := t, content := "",
                    started := true, stopped := false }]
               thinkingBuffer := if t = .thinking then "" else acc.thinkingBuffer
               textBuffer := if t = .text then "" else acc.textBuffer })) ∧
    (startBlockN 101 (mkDeltaAccumulator "m")).isOk = false ∧
    (startBlockN 100 (mkDeltaAccumulator "m")).toOption.map
      (fun a => a.contentBlocks.length) = some 100 := by
  refine ⟨?_, ?_, ?_, ?_⟩
  · intro h
    simp [DeltaAccumulator.startBlock, h]
  · intro h
    simp [DeltaAccumulator.startBlock, Nat.not_le.mpr h]
  · decide
  · decide

/-- Witness for C7: an accumulator at its `maxBlocks = 1` limit is rejected
with the resource-limit error. -/
theorem startBlock_limit_witness :
    ({ mkDeltaAccumulator "w" (some 1) none with
       contentBlocks := [{ index := 0, type := .text, content := "",
                           started := true, stopped := false }]
       currentBlockIndex := 0 } : DeltaAccumulator).contentBlocks.length =
      ({ mkDeltaAccumulator "w" (some 1) none with
         contentBlocks := [{ index := 0, type := .text, content := "",
                             started := true, stopped := false }]
         currentBlockIndex := 0 } : DeltaAccumulator).maxBlocks ∧
    ({ mkDeltaAccumulator "w" (some 1) none with
       contentBlocks := [{ index := 0, type := .text, content := "",
                           started := true, stopped := false }]
       currentBlockIndex := 0 } : DeltaAccumulator).startBlock .text =
      .error "Maximum 1 content blocks exceeded (DoS protection)" :=
  ⟨by decide,
   (startBlock_limit _ .text).1 (by decide)⟩

/-! ## Upstream event constructors used by the streaming scenarios -/

/-- Upstream chunk whose delta carries only reasoning text. -/
def mkReasoningEvent (s : String) : UpstreamEvent EventData :=
  { event := "message"
    data := some
      { choices := [{ delta := some { role := none, content := none,
                                      reasoning_content := some s, tool_calls := none },
                      finish_reason := none }]
        model := none, usage := none }
    index := 1 }

/-- Upstream chunk whose delta carries only answer text. -/
def mkTextEvent (s : String) : UpstreamEvent EventData :=
  { event := "message"
    data := some
      { choices := [{ delta := some { role := none, content := some s,
                                      reasoning_content := none, tool_calls := none },
                      finish_reason := none }]
        model := none, usage := none }
    index := 2 }

/-- Upstream chunk carrying only a finish reason (with an empty delta
object, which is truthy in JS). -/
def mkFinishEvent (r : String) : UpstreamEvent EventData :=
  { event := "message"
    data := some
      { choices := [{ delta := some { role := none, content := none,
                                      reasoning_content := none, tool_calls := none },
                      finish_reason := some r }]
        model := none, usage := none }
    index := 3 }

/-- The completion sentinel as emitted by the frame parser. -/
def doneEvent : UpstreamEvent EventData :=
  { event := "done", data := none, index := 4 }

/-! ## C2: Scenario A -/

/-- C2: the stream reasoning "Let me think" / answer "42" / finish "stop" /
sentinel, fed to `transformDelta`/`finalizeDelta` on a fresh accumulator,
emits exactly: message_start, content_block_start(thinking),
content_block_delta(thinking), signature_delta, content_block_stop,
content_block_start(text), content_block_delta(text), content_block_stop,
message_delta(stop_reason = end_turn), message_stop. The hash function and
timestamp are the environment parameters of the signature. -/
theorem scenarioA (hashFn : String → String) (now : Nat) (msgId : String) :
    (runDeltasEvents hashFn now
      [mkReasoningEvent "Let me think", mkTextEvent "42", mkFinishEvent "stop", doneEvent]
      (mkDeltaAccumulator msgId)).1 =
    [.message_start msgId "assistant" "glm-4.6" 0 0,
     .content_block_start 0 .thinking,
     .content_block_delta_thinking 0 "Let me think",
     .signature_delta 0 { hash := hashFn "Let me think", length := 12, timestamp := now },
     .content_block_stop 0,
     .content_block_start 1 .text,
     .content_block_delta_text 1 "42",
     .content_block_stop 1,
     .message_delta "end_turn" 0,
     .message_stop] := by
  rfl

/-! ## C8: partial-frame reassembly -/

/-- C8: for any JSON parser mapping the string `\x7b"a":1\x7d` to a payload
`v` (as `JSON.parse` does), feeding `data: \x7b"a":1` and then `\x7d\n\n` to
`parse` in two calls yields no events from the first call — the incomplete
line is carried over — and exactly one event from the second, with payload
`v`, default event name and sequence index 1. -/
theorem sse_partial_frame {J : Type} (jsonParse : String → Option J) (v : J)
    (hjp : jsonParse "\x7b\"a\":1\x7d" = some v) :
    SSEParser.parse jsonParse (mkSSEParser) "data: \x7b\"a\":1" =
      (.ok [], { buffer := "data: \x7b\"a\":1", eventCount := 0, maxBufferSize := 1048576 }) ∧
    SSEParser.parse jsonParse
        { buffer := "data: \x7b\"a\":1", eventCount := 0, maxBufferSize := 1048576 }
        "\x7d\n\n" =
      (.ok [{ event := "message", data := some v, index := 1, id := none, retry := none }],
       { buffer := "", eventCount := 1, maxBufferSize := 1048576 }) := by
  have hfun : jsonParse =
      fun s => if s = "\x7b\"a\":1\x7d" then some v else jsonParse s := by
    funext s
    by_cases hs : s = "\x7b\"a\":1\x7d"
    · subst hs
      simp [hjp]
    · simp [hs]
  rw [hfun]
  exact ⟨by rfl, by rfl⟩

/-- Witness for C8: a concrete parser recognising exactly the payload
string. -/
theorem sse_partial_frame_witness :
    SSEParser.parse
        (fun s => if s = "\x7b\"a\":1\x7d" then some () else none)
        (mkSSEParser) "data: \x7b\"a\":1" =
      (.ok [], { buffer := "data: \x7b\"a\":1", eventCount := 0, maxBufferSize := 1048576 }) ∧
    SSEParser.parse
        (fun s => if s = "\x7b\"a\":1\x7d" then some () else none)
        { buffer := "data: \x7b\"a\":1", eventCount := 0, maxBufferSize := 1048576 }
        "\x7d\n\n" =
      (.ok [{ event := "message", data := some (), index := 1, id := none, retry := none }],
       { buffer := "", eventCount := 1, maxBufferSize := 1048576 }) :=
  sse_partial_frame (fun s => if s = "\x7b\"a\":1\x7d" then some () else none) () (by simp)

/-! ## C10: frame-buffer overflow is sticky until reset -/

/-- C10: when the carry-over buffer plus the new chunk exceeds
`maxBufferSize`, `parse` throws the resource-limit error before emitting any
event of that chunk (even a chunk of complete frames), and the oversized
buffer is retained in the parser state, so every subsequent `parse` call
throws again; `reset()` clears the buffer (after which a chunk within the
limit parses normally again). -/
theorem sse_overflow_sticky {J : Type} (jsonParse : String → Option J)
    (p : SSEParser) (chunk : String)
    (h : (p.buffer ++ chunk).length > p.maxBufferSize) :
    SSEParser.parse jsonParse p chunk =
      (.error ("SSE buffer exceeded " ++ toString p.maxBufferSize ++ " bytes (DoS protection)"),
       { p with buffer := p.buffer ++ chunk }) ∧
    (∀ chunk' : String,
      (SSEParser.parse jsonParse { p with buffer := p.buffer ++ chunk } chunk').1 =
        .error ("SSE buffer exceeded " ++ toString p.maxBufferSize
          ++ " bytes (DoS protection)")) ∧
    ({ p with buffer := p.buffer ++ chunk } : SSEParser).reset.buffer = "" ∧
    (∀ chunk' : String, chunk'.length ≤ p.maxBufferSize →
      ((SSEParser.parse jsonParse ({ p with buffer := p.buffer ++ chunk } : SSEParser).reset
          chunk').1).isOk = true) := by
  have hl : p.maxBufferSize < p.buffer.length + chunk.length := by
    simpa [String.length_append] using h
  refine ⟨?_, ?_, rfl, ?_⟩
  · simp [SSEParser.parse, hl]
  · intro chunk'
    have hl2 : p.maxBufferSize < p.buffer.length + chunk.length + chunk'.length := by
      omega
    simp [SSEParser.parse, hl2]
  · intro chunk' hle
    have hc : ¬p.maxBufferSize < chunk'.length := by omega
    simp [SSEParser.parse, SSEParser.reset, hc, Except.isOk, Except.toBool]

/-- Witness for C10: a 3-byte cap overflowed by a chunk that consists of one
complete frame. -/
theorem sse_overflow_sticky_witness :
    SSEParser.parse (fun _ => (none : Option Unit))
        { buffer := "", eventCount := 0, maxBufferSize := 3 } "data: 1\n\n" =
      (.error "SSE buffer exceeded 3 bytes (DoS protection)",
       { buffer := "data: 1\n\n", eventCount := 0, maxBufferSize := 3 }) := by
  have h := (sse_overflow_sticky (fun _ => (none : Option Unit))
    { buffer := "", eventCount := 0, maxBufferSize := 3 } "data: 1\n\n" (by decide)).1
  simpa using h

/-! ## C6: usage normalization -/

/-- A delta without (truthy) reasoning content leaves `reasoningBranch` a
no-op. -/
theorem reasoningBranch_skip (hashFn : String → String) (now : Nat)
    (delta : OpenAIDelta) (acc : DeltaAccumulator)
    (h : jsTruthyStr delta.reasoning_content = false) :
    reasoningBranch hashFn now delta acc = (.ok [], acc) := by
  unfold reasoningBranch
  cases hrc : delta.reasoning_content with
  | none => rfl
  | some s =>
    rw [hrc] at h
    simp [jsTruthyStr] at h
    simp [h]

/-- A delta without (truthy) answer text leaves `textBranch` a no-op. -/
theorem textBranch_skip (hashFn : String → String) (now : Nat)
    (delta : OpenAIDelta) (acc : DeltaAccumulator)
    (h : jsTruthyStr delta.content = false) :
    textBranch hashFn now delta acc = (.ok [], acc) := by
  unfold textBranch
  cases hct : delta.content with
  | none => rfl
  | some s =>
    rw [hct] at h
    simp [jsTruthyStr] at h
    simp [h]

/-- `stopCurrentBlock` only touches the block list. -/
theorem stopCurrentBlock_outputTokens (acc : DeltaAccumulator) :
    acc.stopCurrentBlock.outputTokens = acc.outputTokens := by
  unfold DeltaAccumulator.stopCurrentBlock DeltaAccumulator.setCurrentBlock
  cases acc.getCurrentBlock <;> rfl

/-- `finalizeDelta` on a non-finalized accumulator emits the `message_delta`
carrying the mapped stop reason and the accumulated output-token count. -/
theorem finalizeDelta_message_delta (hashFn : String → String) (now : Nat)
    (acc : DeltaAccumulator) (h : acc.finalized = false) :
    DownstreamEvent.message_delta (mapStopReason (jsOrStr acc.finishReason "stop"))
      acc.outputTokens ∈ (finalizeDelta hashFn now acc).1 := by
  unfold finalizeDelta
  rw [if_neg (by simp [h])]
  rcases hcur : acc.getCurrentBlock with _ | b
  · simp
  · by_cases hst : b.stopped
    · simp [hst]
    · simp [hst, stopCurrentBlock_outputTokens]

/-- C6: an upstream event whose payload carries only a usage object is
stored by `transformDelta` with either token naming normalized into the
counters (`prompt_tokens || input_tokens || 0` and `completion_tokens ||
output_tokens || 0`), emits no downstream event, and the stored output-token
count surfaces in the `message_delta` of `finalizeDelta`. -/
theorem usage_normalization (hashFn : String → String) (now : Nat)
    (ev : UpstreamEvent EventData) (data : EventData) (choice : Choice)
    (delta : OpenAIDelta) (u : Usage) (acc : DeltaAccumulator)
    (hev : ev.event ≠ "done") (hdata : ev.data = some data)
    (hchoice : data.choices.head? = some choice) (hdelta : choice.delta = some delta)
    (hrole : jsTruthyStr delta.role = false)
    (hrc : jsTruthyStr delta.reasoning_content = false)
    (hct : jsTruthyStr delta.content = false)
    (hfin : jsTruthyStr choice.finish_reason = false)
    (husage : data.usage = some u)
    (hstarted : acc.messageStarted = true)
    (hfinal : acc.finalized = false) :
    transformDelta hashFn now ev acc =
      (.ok [],
       { acc with
         inputTokens := jsOrNat u.prompt_tokens (jsOrNat u.input_tokens 0)
         outputTokens := jsOrNat u.completion_tokens (jsOrNat u.output_tokens 0)
         usageReceived := true }) ∧
    DownstreamEvent.message_delta (mapStopReason (jsOrStr acc.finishReason "stop"))
        (jsOrNat u.completion_tokens (jsOrNat u.output_tokens 0)) ∈
      (finalizeDelta hashFn now
        { acc with
          inputTokens := jsOrNat u.prompt_tokens (jsOrNat u.input_tokens 0)
          outputTokens := jsOrNat u.completion_tokens (jsOrNat u.output_tokens 0)
          usageReceived := true }).1 := by
  constructor
  · simp only [transformDelta, hev, if_neg, hdata, hchoice, hdelta, hstarted, if_true,
      hrole, Bool.false_eq_true, if_false,
      reasoningBranch_skip hashFn now delta _ hrc,
      textBranch_skip hashFn now delta _ hct, husage, hfin]
    simp [messageStartStep, roleStep, usageStep, finishStep,
      DeltaAccumulator.updateUsage, hstarted, hrole, husage, hfin]
  · exact finalizeDelta_message_delta hashFn now _ (by simp [hfinal])

/-- Delta object with no fields set. -/
def emptyDelta : OpenAIDelta :=
  { role := none, content := none, reasoning_content := none, tool_calls := none }

/-- Usage object in `\x7bprompt_tokens, output_tokens\x7d` mixed naming. -/
def usageOnly : Usage :=
  { prompt_tokens := some 3, completion_tokens := none,
    input_tokens := none, output_tokens := some 5 }

/-- Upstream chunk carrying only a usage payload. -/
def usageEvent : UpstreamEvent EventData :=
  { event := "message"
    data := some { choices := [{ delta := some emptyDelta, finish_reason := none }],
                   model := none, usage := some usageOnly }
    index := 1 }

/-- Accumulator after `message_start` has been emitted. -/
def startedAcc : DeltaAccumulator :=
  { mkDeltaAccumulator "m" with messageStarted := true }

/-- Witness for C6: the mixed-naming usage object is normalized to
`inputTokens = 3`, `outputTokens = 5` with no event, and finalize emits
`message_delta` with 5 output tokens. -/
theorem usage_normalization_witness :
    transformDelta (fun _ => "") 0 usageEvent startedAcc =
      (.ok [], { startedAcc with inputTokens := 3, outputTokens := 5, usageReceived := true }) ∧
    DownstreamEvent.message_delta "end_turn" 5 ∈
      (finalizeDelta (fun _ => "") 0
        { startedAcc with inputTokens := 3, outputTokens := 5, usageReceived := true }).1 := by
  have h := usage_normalization (fun _ => "") 0 usageEvent
    { choices := [{ delta := some emptyDelta, finish_reason := none }],
      model := none, usage := some usageOnly }
    { delta := some emptyDelta, finish_reason := none }
    emptyDelta usageOnly startedAcc
    (by decide) rfl rfl rfl rfl rfl rfl rfl rfl rfl rfl
  exact h

/-! ## C9: buffered request transformation falls back on failure -/

/-- C9: whenever the body of the buffered request transformation throws —
directive extraction, message sanitization or any later step —
`transformRequest` returns (rather than raises) the original request object
unmodified together with a directive config recording `thinking = false`. -/
theorem transformRequest_fallback (defaultThinking : Bool) (req : AnthropicRequest)
    (e : String) (herr : transformRequestBody defaultThinking req = .error e) :
    transformRequest defaultThinking req =
      { openaiRequest := .original req
        thinkingConfig := { thinking := false, effort := none }
        error := some e } := by
  unfold transformRequest
  rw [herr]

/-- Request whose `messages` array contains a `null` entry: the `msg.role`
access in directive extraction throws a TypeError. -/
def nullMsgRequest : AnthropicRequest :=
  { model := some "claude-sonnet-4", messages := some [JMsg.null],
    stream := some true, temperature := none, top_p := none }

/-- Witness for C9: the null-message request makes the body throw, and
`transformRequest` returns the original request with `thinking = false`. -/
theorem transformRequest_fallback_witness :
    transformRequest true nullMsgRequest =
      { openaiRequest := .original nullMsgRequest
        thinkingConfig := { thinking := false, effort := none }
        error := some "TypeError: Cannot read properties of null (reading role)" } :=
  transformRequest_fallback true nullMsgRequest
    "TypeError: Cannot read properties of null (reading role)" rfl

/-! ## C3: tool-call fragments -/

/-- `setCurrentBlock` only touches the block list. -/
theorem setCurrentBlock_toolCalls (acc : DeltaAccumulator) (b : ContentBlock) :
    (acc.setCurrentBlock b).toolCalls = acc.toolCalls := rfl

/-- `startBlock` never touches the tool-call list. -/
theorem startBlock_toolCalls (acc : DeltaAccumulator) (t : BlockType)
    (b : ContentBlock) (acc' : DeltaAccumulator) (h : acc.startBlock t = .ok (b, acc')) :
    acc'.toolCalls = acc.toolCalls := by
  unfold DeltaAccumulator.startBlock at h
  split at h
  · exact absurd h (by simp)
  · simp only [Except.ok.injEq, Prod.mk.injEq] at h
    rw [← h.2]

/-- `addDelta` never touches the tool-call list. -/
theorem addDelta_toolCalls (acc : DeltaAccumulator) (d : String)
    (a : DeltaAccumulator) (h : acc.addDelta d = .ok a) :
    a.toolCalls = acc.toolCalls := by
  unfold DeltaAccumulator.addDelta at h
  split at h
  · simp only [Except.ok.injEq] at h
    rw [← h]
  · split at h <;> try split at h
    · exact absurd h (by simp)
    · simp only [Except.ok.injEq] at h
      rw [← h, setCurrentBlock_toolCalls]
    · exact absurd h (by simp)
    · simp only [Except.ok.injEq] at h
      rw [← h, setCurrentBlock_toolCalls]
    · simp only [Except.ok.injEq] at h
      rw [← h]

/-- `stopCurrentBlock` never touches the tool-call list. -/
theorem stopCurrentBlock_toolCalls (acc : DeltaAccumulator) :
    acc.stopCurrentBlock.toolCalls = acc.toolCalls := by
  unfold DeltaAccumulator.stopCurrentBlock
  cases acc.getCurrentBlock <;> rfl

/-- `finalizeDelta` never touches the tool-call list. -/
theorem finalizeDelta_toolCalls (hashFn : String → String) (now : Nat)
    (acc : DeltaAccumulator) : (finalizeDelta hashFn now acc).2.toolCalls = acc.toolCalls := by
  unfold finalizeDelta
  split
  · rfl
  · split <;> (try split) <;> simp [stopCurrentBlock_toolCalls]

/-- `ensureBlock` never touches the tool-call list. -/
theorem ensureBlock_toolCalls (acc : DeltaAccumulator) (k : BlockType) (ns : Bool)
    (evs : List DownstreamEvent) (acc' : DeltaAccumulator)
    (h : ensureBlock acc k ns = .ok (evs, acc')) : acc'.toolCalls = acc.toolCalls := by
  unfold ensureBlock at h
  split at h
  · split at h
    · exact absurd h (by simp)
    · simp only [Except.ok.injEq, Prod.mk.injEq] at h
      rename_i b acc1 hsb
      rw [← h.2]
      exact startBlock_toolCalls _ _ _ _ hsb
  · simp only [Except.ok.injEq, Prod.mk.injEq] at h
    rw [← h.2]

/-- `appendAndEmit` never touches the tool-call list. -/
theorem appendAndEmit_toolCalls (acc : DeltaAccumulator) (d : String)
    (mk : Int → String → DownstreamEvent) :
    (appendAndEmit acc d mk).2.toolCalls = acc.toolCalls := by
  unfold appendAndEmit
  split
  · rfl
  · rename_i acc' hadd
    split <;> exact addDelta_toolCalls _ _ _ hadd

/-- Variant of `appendAndEmit_toolCalls` keyed on the result pair. -/
theorem appendAndEmitSnd_toolCalls (acc : DeltaAccumulator) (d : String)
    (mk : Int → String → DownstreamEvent) (r : Except String (List DownstreamEvent))
    (acc' : DeltaAccumulator) (h : appendAndEmit acc d mk = (r, acc')) :
    acc'.toolCalls = acc.toolCalls := by
  have h1 := appendAndEmit_toolCalls acc d mk
  rw [h] at h1
  exact h1

/-- `closeThinkingIfOpen` never touches the tool-call list. -/
theorem closeThinkingIfOpen_toolCalls (hashFn : String → String) (now : Nat)
    (acc : DeltaAccumulator) :
    (closeThinkingIfOpen hashFn now acc).2.toolCalls = acc.toolCalls := by
  unfold closeThinkingIfOpen
  split
  · split
    · exact stopCurrentBlock_toolCalls acc
    · rfl
  · rfl

/-- Variant of `closeThinkingIfOpen_toolCalls` keyed on the result pair. -/
theorem closeThinkingIfOpenSnd_toolCalls (hashFn : String → String) (now : Nat)
    (acc : DeltaAccumulator) (evs : List DownstreamEvent) (acc' : DeltaAccumulator)
    (h : closeThinkingIfOpen hashFn now acc = (evs, acc')) :
    acc'.toolCalls = acc.toolCalls := by
  have h1 := closeThinkingIfOpen_toolCalls hashFn now acc
  rw [h] at h1
  exact h1

/-- `reasoningBranch` never touches the tool-call list. -/
theorem reasoningBranch_toolCalls (hashFn : String → String) (now : Nat)
    (delta : OpenAIDelta) (acc : DeltaAccumulator) :
    (reasoningBranch hashFn now delta acc).2.toolCalls = acc.toolCalls := by
  unfold reasoningBranch
  cases hrc : delta.reasoning_content with
  | none => rfl
  | some rc =>
    by_cases hrce : rc = ""
    · simp [hrce]
    · rcases heb : ensureBlock acc .thinking (needStartBlock acc .thinking) with e | ⟨startEvents, acc1⟩
      · simp [hrce, heb]
      · have h10 : acc1.toolCalls = acc.toolCalls := ensureBlock_toolCalls _ _ _ _ _ heb
        rcases happ : appendAndEmit acc1 rc
            (fun i s => DownstreamEvent.content_block_delta_thinking i s) with ⟨r, acc2⟩
        have h21 : acc2.toolCalls = acc1.toolCalls :=
          appendAndEmitSnd_toolCalls _ _ _ _ _ happ
        rcases r with e | devs <;> simp [hrce, heb, happ, h21, h10]

/-- `textBranch` never touches the tool-call list. -/
theorem textBranch_toolCalls (hashFn : String → String) (now : Nat)
    (delta : OpenAIDelta) (acc : DeltaAccumulator) :
    (textBranch hashFn now delta acc).2.toolCalls = acc.toolCalls := by
  unfold textBranch
  cases hct : delta.content with
  | none => rfl
  | some tc =>
    by_cases htce : tc = ""
    · simp [htce]
    · rcases hclose : closeThinkingIfOpen hashFn now acc with ⟨closeEvents, acc1⟩
      have h10 : acc1.toolCalls = acc.toolCalls :=
        closeThinkingIfOpenSnd_toolCalls _ _ _ _ _ hclose
      rcases heb : ensureBlock acc1 .text (needStartBlock acc1 .text) with e | ⟨startEvents, acc2⟩
      · simp [htce, hclose, heb, h10]
      · have h21 : acc2.toolCalls = acc1.toolCalls := ensureBlock_toolCalls _ _ _ _ _ heb
        rcases happ : appendAndEmit acc2 tc
            (fun i s => DownstreamEvent.content_block_delta_text i s) with ⟨r, acc3⟩
        have h32 : acc3.toolCalls = acc2.toolCalls :=
          appendAndEmitSnd_toolCalls _ _ _ _ _ happ
        rcases r with e | devs <;> simp [htce, hclose, heb, happ, h32, h21, h10]

/-- Variant of `reasoningBranch_toolCalls` keyed on the result pair. -/
theorem reasoningBranchSnd_toolCalls (hashFn : String → String) (now : Nat)
    (delta : OpenAIDelta) (acc : DeltaAccumulator)
    (r : Except String (List DownstreamEvent)) (acc' : DeltaAccumulator)
    (h : reasoningBranch hashFn now delta acc = (r, acc')) :
    acc'.toolCalls = acc.toolCalls := by
  have h1 := reasoningBranch_toolCalls hashFn now delta acc
  rw [h] at h1
  exact h1

/-- Variant of `textBranch_toolCalls` keyed on the result pair. -/
theorem textBranchSnd_toolCalls (hashFn : String → String) (now : Nat)
    (delta : OpenAIDelta) (acc : DeltaAccumulator)
    (r : Except String (List DownstreamEvent)) (acc' : DeltaAccumulator)
    (h : textBranch hashFn now delta acc = (r, acc')) :
    acc'.toolCalls = acc.toolCalls := by
  have h1 := textBranch_toolCalls hashFn now delta acc
  rw [h] at h1
  exact h1

/-- The message-start step never touches the tool-call list. -/
theorem messageStartStep_toolCalls (acc : DeltaAccumulator) (data : EventData) :
    (messageStartStep acc data).2.toolCalls = acc.toolCalls := by
  unfold messageStartStep
  split
  · rfl
  · split <;> rfl

/-- The role step never touches the tool-call list. -/
theorem roleStep_toolCalls (acc : DeltaAccumulator) (delta : OpenAIDelta) :
    (roleStep acc delta).toolCalls = acc.toolCalls := by
  unfold roleStep
  split <;> rfl

/-- The usage step never touches the tool-call list. -/
theorem usageStep_toolCalls (acc : DeltaAccumulator) (data : EventData) :
    (usageStep acc data).toolCalls = acc.toolCalls := by
  unfold usageStep
  split <;> rfl

/-- The finish-reason step never touches the tool-call list. -/
theorem finishStep_toolCalls (acc : DeltaAccumulator) (choice : Choice) :
    (finishStep acc choice).toolCalls = acc.toolCalls := by
  unfold finishStep
  split <;> rfl

/-- `transformDelta` never touches the tool-call list: the streaming
transformer of the source reads no `delta.tool_calls` field. -/
theorem transformDelta_toolCalls (hashFn : String → String) (now : Nat)
    (ev : UpstreamEvent EventData) (acc : DeltaAccumulator) :
    (transformDelta hashFn now ev acc).2.toolCalls = acc.toolCalls := by
  unfold transformDelta
  by_cases hdone : ev.event = "done"
  · simp [hdone, finalizeDelta_toolCalls]
  · rw [if_neg hdone]
    cases hd : ev.data with
    | none => rfl
    | some data =>
      dsimp only
      cases hch : data.choices.head? with
      | none => rfl
      | some choice =>
        dsimp only
        cases hdel : choice.delta with
        | none => rfl
        | some delta =>
          dsimp only
          rcases hms : messageStartStep acc data with ⟨sEvs, acc0⟩
          have h0 : acc0.toolCalls = acc.toolCalls := by
            have := messageStartStep_toolCalls acc data
            rw [hms] at this
            exact this
          have h1 : (roleStep acc0 delta).toolCalls = acc.toolCalls :=
            (roleStep_toolCalls acc0 delta).trans h0
          rcases hrb : reasoningBranch hashFn now delta (roleStep acc0 delta) with ⟨r2, acc2⟩
          have h2 : acc2.toolCalls = acc.toolCalls :=
            (reasoningBranchSnd_toolCalls _ _ _ _ _ _ hrb).trans h1
          rcases r2 with e | rEvs
          · simp [hms, hrb, h2]
          · rcases htb : textBranch hashFn now delta acc2 with ⟨r3, acc3⟩
            have h3 : acc3.toolCalls = acc.toolCalls :=
              (textBranchSnd_toolCalls _ _ _ _ _ _ htb).trans h2
            rcases r3 with e | tEvs
            · simp [hms, hrb, htb, h3]
            · simp only [hms, hrb, htb]
              exact ((finishStep_toolCalls _ choice).trans
                ((usageStep_toolCalls acc3 data).trans h3))

/-- Mapping a function that fixes every element of a list is the identity. -/
theorem map_id_of_mem {α : Type} (l : List α) (f : α → α) (h : ∀ x ∈ l, f x = x) :
    l.map f = l := by
  induction l with
  | nil => rfl
  | cons a t ih =>
    simp only [List.map_cons]
    rw [h a (by simp), ih (fun x hx => h x (by simp [hx]))]

/-- The (truthy-guarded) string fragment carried by an optional field
(JS `if (x) \x7b ... += x \x7d`). -/
def jsFrag (o : Option String) : String :=
  if jsTruthyStr o then o.getD "" else ""

/-- A tool-call fragment as streamed by the upstream. -/
def toolCallFragment : ToolCallDelta :=
  { index := 0, id := some "call_1", type := some "function",
    function := some { name := some "get_weather", arguments := some "\x7b\"ci" } }

/-- Upstream chunk whose delta carries only the tool-call fragment. -/
def toolCallEvent : UpstreamEvent EventData :=
  { event := "message"
    data := some
      { choices := [{ delta := some { role := none, content := none,
                                      reasoning_content := none,
                                      tool_calls := some [toolCallFragment] },
                      finish_reason := none }]
        model := none, usage := none }
    index := 1 }

/-- C3 counterexample: a delta carrying a tool-call fragment is NOT
accumulated by the streaming transformer — `transformDelta` leaves the
tool-call list empty (while indeed emitting no content-block events), so
the per-call-index entry the claim describes never appears. -/
theorem toolcall_ignored_counterexample :
    (transformDelta (fun _ => "") 0 toolCallEvent startedAcc).2.toolCalls = [] ∧
    (transformDelta (fun _ => "") 0 toolCallEvent startedAcc).1 = .ok [] ∧
    ¬((transformDelta (fun _ => "") 0 toolCallEvent startedAcc).2.toolCalls =
       [{ index := 0, id := "call_1", type := "function", name := "get_weather",
          arguments := "\x7b\"ci" }]) :=
  ⟨by rfl, by rfl, by decide⟩

/-- C3 amended: `transformDelta` emits no incremental content-block events
for tool-call fragments and ignores them entirely (the tool-call list is
never touched by the streaming transformer); separately, the accumulator's
`addToolCallDelta` maintains per-call-index entries, overwriting the id and
type when (truthily) present and concatenating name and argument fragments
incrementally. -/
theorem toolcall_accumulation_amended :
    (∀ (hashFn : String → String) (now : Nat) (ev : UpstreamEvent EventData)
       (acc : DeltaAccumulator),
      (transformDelta hashFn now ev acc).2.toolCalls = acc.toolCalls) ∧
    (∀ (t : ToolCall) (tcd : ToolCallDelta),
      (DeltaAccumulator.applyToolCallDelta t tcd).index = t.index ∧
      (DeltaAccumulator.applyToolCallDelta t tcd).name =
        t.name ++ jsFrag (tcd.function.bind (fun f => f.name)) ∧
      (DeltaAccumulator.applyToolCallDelta t tcd).arguments =
        t.arguments ++ jsFrag (tcd.function.bind (fun f => f.arguments))) ∧
    (∀ (acc : DeltaAccumulator) (tcd : ToolCallDelta),
      acc.toolCalls.any (fun t => t.index = tcd.index) = false →
      (acc.addToolCallDelta tcd).toolCalls =
        acc.toolCalls ++ [DeltaAccumulator.applyToolCallDelta
          { index := tcd.index, id := "", type := "function",
            name := "", arguments := "" } tcd]) ∧
    (∀ (acc : DeltaAccumulator) (tcd : ToolCallDelta),
      acc.toolCalls.any (fun t => t.index = tcd.index) = true →
      (acc.addToolCallDelta tcd).toolCalls =
        acc.toolCalls.map
          (fun t => if t.index = tcd.index then DeltaAccumulator.applyToolCallDelta t tcd else t)) := by
  refine ⟨transformDelta_toolCalls, ?_, ?_, ?_⟩
  · intro t tcd
    rcases hf : tcd.function with _ | f
    · by_cases h1 : jsTruthyStr tcd.id = true <;> by_cases h2 : jsTruthyStr tcd.type = true <;>
        simp [DeltaAccumulator.applyToolCallDelta, jsFrag, hf, h1, h2]
    · by_cases h1 : jsTruthyStr tcd.id = true <;> by_cases h2 : jsTruthyStr tcd.type = true <;>
        by_cases h3 : jsTruthyStr f.name = true <;>
        by_cases h4 : jsTruthyStr f.arguments = true <;>
        simp [DeltaAccumulator.applyToolCallDelta, jsFrag, hf, h1, h2, h3, h4]
  · intro acc tcd hnone
    have hmem : ∀ t ∈ acc.toolCalls, t.index ≠ tcd.index := by
      intro t ht
      have := List.any_eq_false.mp hnone t ht
      simpa using this
    unfold DeltaAccumulator.addToolCallDelta
    rw [if_neg (by simp [hnone])]
    dsimp only
    rw [List.map_append]
    rw [map_id_of_mem acc.toolCalls _
      (fun t ht => by simp [hmem t ht])]
    simp
  · intro acc tcd hsome
    unfold DeltaAccumulator.addToolCallDelta
    rw [if_pos (by simp [hsome])]

/-- Witness for C3 (amended): accumulating the concrete fragment into an
empty tool-call list creates the per-call-index entry with id overwritten
and name/argument fragments appended. -/
theorem toolcall_accumulation_amended_witness :
    ((mkDeltaAccumulator "m").addToolCallDelta toolCallFragment).toolCalls =
      [{ index := 0, id := "call_1", type := "function", name := "get_weather",
         arguments := "\x7b\"ci" }] := by
  have h := toolcall_accumulation_amended.2.2.1 (mkDeltaAccumulator "m")
    toolCallFragment (by decide)
  rw [h]
  decide

/-! ## C1: the exclusive-open-block invariant

The invariant below is what the streaming transformer actually maintains:
the open-index always points at the last block and every block before the
last is stopped. It is preserved by every `transformDelta` step as long as
no reasoning delta arrives after an answer-text delta has opened a text
block; the text branch closes an open thinking block before opening the
text block, but the reasoning branch does NOT close an open text block, so
a text-then-reasoning stream leaves two blocks open (the counterexample
below). -/

/-- The open-index points at the last block (−1 on an empty list). -/
def Aligned (acc : DeltaAccumulator) : Prop :=
  acc.currentBlockIndex = (acc.contentBlocks.length : Int) - 1

/-- Every block except the last is stopped. -/
def PrevStopped (acc : DeltaAccumulator) : Prop :=
  ∀ b ∈ acc.contentBlocks.dropLast, b.stopped = true

/-- The streaming transformer never starts a `tool_use` block. -/
def NoToolUse (acc : DeltaAccumulator) : Prop :=
  ∀ b ∈ acc.contentBlocks, b.type ≠ .tool_use

/-- The inductive invariant of the streaming state machine. -/
def Inv (acc : DeltaAccumulator) : Prop :=
  Aligned acc ∧ PrevStopped acc ∧ NoToolUse acc

/-- The last block is an open text block (the state from which a reasoning
delta breaks exclusivity). -/
def LastOpenText (acc : DeltaAccumulator) : Prop :=
  ∃ b, acc.contentBlocks.getLast? = some b ∧ b.type = .text ∧ b.stopped = false

/-- Setting the last position of a non-empty list replaces its last
element. -/
theorem set_last {α : Type} (l : List α) (x : α) (h : l ≠ []) :
    l.set (l.length - 1) x = l.dropLast ++ [x] := by
  induction l with
  | nil => simp at h
  | cons a t ih =>
    cases t with
    | nil => simp
    | cons b u =>
      have hne : (b :: u) ≠ [] := by simp
      have h1 : (a :: b :: u).length - 1 = (b :: u).length - 1 + 1 := by simp
      rw [h1, List.set_cons_succ, ih hne]
      simp

/-- Under alignment `getCurrentBlock` is the last block. -/
theorem getCurrentBlock_of_aligned (acc : DeltaAccumulator) (h : Aligned acc) :
    acc.getCurrentBlock = acc.contentBlocks.getLast? := by
  unfold DeltaAccumulator.getCurrentBlock
  by_cases hn : acc.contentBlocks = []
  · unfold Aligned at h
    rw [hn] at h ⊢
    simp at h
    simp [h]
  · have hlen : 0 < acc.contentBlocks.length := List.length_pos.mpr hn
    have hidx := h
    unfold Aligned at hidx
    have h0 : 0 ≤ acc.currentBlockIndex := by omega
    have h1 : acc.currentBlockIndex < (acc.contentBlocks.length : Int) := by omega
    rw [if_pos ⟨h0, h1⟩]
    have ht : acc.currentBlockIndex.toNat = acc.contentBlocks.length - 1 := by omega
    rw [ht, ← List.getLast?_eq_getElem?]

/-- The invariant bounds the number of open blocks by one. -/
theorem openCount_le_one_of_inv (acc : DeltaAccumulator) (h : Inv acc) :
    openCount acc ≤ 1 := by
  rcases List.eq_nil_or_concat' acc.contentBlocks with hnil | ⟨l', b, hcat⟩
  · simp [openCount, hnil]
  · unfold openCount
    rw [hcat, List.filter_append]
    have hstopped : ∀ x ∈ l', x.stopped = true := by
      intro x hx
      apply h.2.1
      rw [hcat, List.dropLast_concat]
      exact hx
    have hfl : l'.filter (fun b => decide (b.started = true ∧ ¬b.stopped = true)) = [] := by
      rw [List.filter_eq_nil_iff]
      intro x hx
      simp [hstopped x hx]
    rw [hfl]
    simp only [List.nil_append]
    have : (List.filter (fun b => decide (b.started = true ∧ ¬b.stopped = true)) [b]).length ≤
        [b].length := List.length_filter_le _ _
    simpa using this

/-- `Inv` depends only on the block list and the open-index. -/
theorem inv_congr (a b : DeltaAccumulator) (hc : b.contentBlocks = a.contentBlocks)
    (hi : b.currentBlockIndex = a.currentBlockIndex) (h : Inv a) : Inv b := by
  unfold Inv Aligned PrevStopped NoToolUse at h ⊢
  rw [hc, hi]
  exact h

/-- `LastOpenText` depends only on the block list. -/
theorem lastOpenText_congr (a b : DeltaAccumulator)
    (hc : b.contentBlocks = a.contentBlocks) (h : LastOpenText b) : LastOpenText a := by
  unfold LastOpenText at h ⊢
  rw [hc] at h
  exact h

/-- A fresh accumulator satisfies the invariant. -/
theorem inv_mk (msgId : String) (optB optS : Option Nat) :
    Inv (mkDeltaAccumulator msgId optB optS) := by
  refine ⟨?_, ?_, ?_⟩ <;> simp [mkDeltaAccumulator, Aligned, PrevStopped, NoToolUse]

/-- A fresh accumulator has no open text block. -/
theorem not_lastOpenText_mk (msgId : String) (optB optS : Option Nat) :
    ¬LastOpenText (mkDeltaAccumulator msgId optB optS) := by
  rintro ⟨b, hb, -, -⟩
  simp [mkDeltaAccumulator] at hb

/-- Replacing the current (= last) block with a non-tool_use block keeps the
invariant, and the new block becomes the last. -/
theorem setCurrentBlock_inv (acc : DeltaAccumulator) (b' : ContentBlock)
    (hInv : Inv acc) (hne : acc.contentBlocks ≠ []) (htype : b'.type ≠ .tool_use) :
    Inv (acc.setCurrentBlock b') ∧
    (acc.setCurrentBlock b').contentBlocks = acc.contentBlocks.dropLast ++ [b'] := by
  have hidx : acc.currentBlockIndex.toNat = acc.contentBlocks.length - 1 := by
    have h := hInv.1
    unfold Aligned at h
    have hlen : 0 < acc.contentBlocks.length := List.length_pos.mpr hne
    omega
  have hset : (acc.setCurrentBlock b').contentBlocks = acc.contentBlocks.dropLast ++ [b'] := by
    unfold DeltaAccumulator.setCurrentBlock
    dsimp only
    rw [hidx, set_last _ _ hne]
  refine ⟨⟨?_, ?_, ?_⟩, hset⟩
  · have h := hInv.1
    unfold Aligned at h ⊢
    rw [hset]
    have hlen : 0 < acc.contentBlocks.length := List.length_pos.mpr hne
    simp only [List.length_append, List.length_dropLast, List.length_cons, List.length_nil,
      DeltaAccumulator.setCurrentBlock]
    omega
  · unfold PrevStopped
    rw [hset, List.dropLast_concat]
    intro x hx
    exact hInv.2.1 x hx
  · unfold NoToolUse
    rw [hset]
    intro x hx
    rcases List.mem_append.mp hx with hx' | hx'
    · exact hInv.2.2 x (List.mem_of_mem_dropLast hx')
    · rw [List.mem_singleton.mp hx']
      exact htype

/-- `startBlock` of a non-tool_use kind keeps the invariant provided the
previous last block (if any) is stopped; the fresh open block becomes the
last. -/
theorem startBlock_inv (acc : DeltaAccumulator) (t : BlockType)
    (b : ContentBlock) (acc' : DeltaAccumulator)
    (hInv : Inv acc) (ht : t ≠ .tool_use)
    (hstop : ∀ lb, acc.contentBlocks.getLast? = some lb → lb.stopped = true)
    (h : acc.startBlock t = .ok (b, acc')) :
    Inv acc' ∧ acc'.contentBlocks.getLast? = some b ∧ b.type = t ∧ b.stopped = false := by
  unfold DeltaAccumulator.startBlock at h
  split at h
  · exact absurd h (by simp)
  · simp only [Except.ok.injEq, Prod.mk.injEq] at h
    obtain ⟨hb, hacc⟩ := h
    subst hacc
    refine ⟨⟨?_, ?_, ?_⟩, ?_, ?_, ?_⟩
    · have h1 := hInv.1
      unfold Aligned at h1 ⊢
      simp only [List.length_append, List.length_cons, List.length_nil]
      omega
    · unfold PrevStopped
      dsimp only
      rw [List.dropLast_concat]
      intro x hx
      rcases List.eq_nil_or_concat' acc.contentBlocks with hnil | ⟨l', lb, hcat⟩
      · rw [hnil] at hx
        simp at hx
      · rw [hcat] at hx
        rcases List.mem_append.mp hx with hx' | hx'
        · apply hInv.2.1
          rw [hcat, List.dropLast_concat]
          exact hx'
        · rw [List.mem_singleton.mp hx']
          apply hstop
          rw [hcat]
          simp
    · unfold NoToolUse
      dsimp only
      intro x hx
      rcases List.mem_append.mp hx with hx' | hx'
      · exact hInv.2.2 x hx'
      · rw [List.mem_singleton.mp hx']
        simpa using ht
    · dsimp only
      rw [← hb]
      simp
    · rw [← hb]
    · rw [← hb]

/-- `addDelta` keeps the invariant and preserves the type and stop flag of
the last block. -/
theorem addDelta_inv (acc : DeltaAccumulator) (d : String) (acc' : DeltaAccumulator)
    (hInv : Inv acc) (h : acc.addDelta d = .ok acc') :
    Inv acc' ∧
    acc'.contentBlocks.getLast?.map (fun b => (b.type, b.stopped)) =
      acc.contentBlocks.getLast?.map (fun b => (b.type, b.stopped)) := by
  unfold DeltaAccumulator.addDelta at h
  rcases hcur : acc.getCurrentBlock with _ | block
  · rw [hcur] at h
    simp only [Except.ok.injEq] at h
    rw [← h]
    exact ⟨hInv, rfl⟩
  · rw [hcur] at h
    dsimp only at h
    have hlast : acc.contentBlocks.getLast? = some block := by
      rw [← getCurrentBlock_of_aligned acc hInv.1]
      exact hcur
    have hne : acc.contentBlocks ≠ [] := by
      intro hnil
      rw [hnil] at hlast
      simp at hlast
    cases hbt : block.type with
    | thinking =>
      rw [hbt] at h
      dsimp only at h
      split at h
      · exact absurd h (by simp)
      · simp only [Except.ok.injEq] at h
        rw [← h]
        have hbase : Inv { acc with thinkingBuffer := acc.thinkingBuffer ++ d } :=
          inv_congr acc _ rfl rfl hInv
        have hs := setCurrentBlock_inv { acc with thinkingBuffer := acc.thinkingBuffer ++ d }
          { block with content := acc.thinkingBuffer ++ d } hbase hne (by simp [hbt])
        rw [hbt] at hs
        refine ⟨hs.1, ?_⟩
        rw [hs.2, hlast]
        simp [hbt]
    | text =>
      rw [hbt] at h
      dsimp only at h
      split at h
      · exact absurd h (by simp)
      · simp only [Except.ok.injEq] at h
        rw [← h]
        have hbase : Inv { acc with textBuffer := acc.textBuffer ++ d } :=
          inv_congr acc _ rfl rfl hInv
        have hs := setCurrentBlock_inv { acc with textBuffer := acc.textBuffer ++ d }
          { block with content := acc.textBuffer ++ d } hbase hne (by simp [hbt])
        rw [hbt] at hs
        refine ⟨hs.1, ?_⟩
        rw [hs.2, hlast]
        simp [hbt]
    | tool_use =>
      rw [hbt] at h
      simp only [Except.ok.injEq] at h
      rw [← h]
      exact ⟨hInv, rfl⟩

/-- `stopCurrentBlock` keeps the invariant; afterwards every block,
including the last, is stopped when the list is non-empty, and the state is
unchanged when there is no current block. -/
theorem stopCurrentBlock_inv (acc : DeltaAccumulator) (hInv : Inv acc) :
    Inv acc.stopCurrentBlock ∧
    (∀ b, acc.contentBlocks.getLast? = some b →
      acc.stopCurrentBlock.contentBlocks.getLast? = some { b with stopped := true }) ∧
    (acc.contentBlocks.getLast? = none → acc.stopCurrentBlock = acc) := by
  unfold DeltaAccumulator.stopCurrentBlock
  rw [getCurrentBlock_of_aligned acc hInv.1]
  rcases hlast : acc.contentBlocks.getLast? with _ | b
  · refine ⟨?_, ?_, ?_⟩
    · dsimp only
      exact hInv
    · intro b hb
      exact absurd hb (by simp)
    · intro _
      rfl
  · have hne : acc.contentBlocks ≠ [] := by
      intro hnil
      rw [hnil] at hlast
      simp at hlast
    have hmem : b ∈ acc.contentBlocks := List.mem_of_mem_getLast? hlast
    have hs := setCurrentBlock_inv acc { b with stopped := true } hInv hne
      (by simpa using hInv.2.2 b hmem)
    refine ⟨?_, ?_, ?_⟩
    · dsimp only
      exact hs.1
    · intro b' hb'
      have hbb : b = b' := by
        simpa using hb'
      dsimp only
      rw [hs.2, ← hbb]
      simp
    · intro hnone
      exact absurd hnone (by simp)

/-- The delta object an upstream event feeds to the branch steps of
`transformDelta` (none for the sentinel or shape mismatches). -/
def effectiveDelta (ev : UpstreamEvent EventData) : Option OpenAIDelta :=
  if ev.event = "done" then none
  else ev.data.bind (fun d => d.choices.head?.bind (fun c => c.delta))

/-- Does the event carry (truthy) reasoning text? -/
def eventHasReasoning (ev : UpstreamEvent EventData) : Bool :=
  match effectiveDelta ev with
  | some d => jsTruthyStr d.reasoning_content
  | none => false

/-- Does the event carry (truthy) answer text? -/
def eventHasText (ev : UpstreamEvent EventData) : Bool :=
  match effectiveDelta ev with
  | some d => jsTruthyStr d.content
  | none => false

/-- The message-start step never touches the blocks or the open-index. -/
theorem messageStartStep_blocks (acc : DeltaAccumulator) (data : EventData) :
    (messageStartStep acc data).2.contentBlocks = acc.contentBlocks ∧
    (messageStartStep acc data).2.currentBlockIndex = acc.currentBlockIndex := by
  unfold messageStartStep
  split
  · exact ⟨rfl, rfl⟩
  · split <;> exact ⟨rfl, rfl⟩

/-- The role step never touches the blocks or the open-index. -/
theorem roleStep_blocks (acc : DeltaAccumulator) (delta : OpenAIDelta) :
    (roleStep acc delta).contentBlocks = acc.contentBlocks ∧
    (roleStep acc delta).currentBlockIndex = acc.currentBlockIndex := by
  unfold roleStep
  split <;> exact ⟨rfl, rfl⟩

/-- The usage step never touches the blocks or the open-index. -/
theorem usageStep_blocks (acc : DeltaAccumulator) (data : EventData) :
    (usageStep acc data).contentBlocks = acc.contentBlocks ∧
    (usageStep acc data).currentBlockIndex = acc.currentBlockIndex := by
  unfold usageStep
  split <;> exact ⟨rfl, rfl⟩

/-- The finish-reason step never touches the blocks or the open-index. -/
theorem finishStep_blocks (acc : DeltaAccumulator) (choice : Choice) :
    (finishStep acc choice).contentBlocks = acc.contentBlocks ∧
    (finishStep acc choice).currentBlockIndex = acc.currentBlockIndex := by
  unfold finishStep
  split <;> exact ⟨rfl, rfl⟩

/-- `ensureBlock` (as called with `needStartBlock`) keeps the invariant when
a start is only forced while the previous last block is stopped; afterwards
the last block has the requested kind. -/
theorem ensureBlock_inv (acc : DeltaAccumulator) (k : BlockType)
    (evs : List DownstreamEvent) (acc' : DeltaAccumulator)
    (hInv : Inv acc) (hk : k ≠ .tool_use)
    (hstop : needStartBlock acc k = true →
      ∀ lb, acc.contentBlocks.getLast? = some lb → lb.stopped = true)
    (h : ensureBlock acc k (needStartBlock acc k) = .ok (evs, acc')) :
    Inv acc' ∧ ∃ lb', acc'.contentBlocks.getLast? = some lb' ∧ lb'.type = k := by
  unfold ensureBlock at h
  by_cases hns : needStartBlock acc k = true
  · rw [if_pos hns] at h
    rcases hsb : acc.startBlock k with e | ⟨b, acc1⟩
    · rw [hsb] at h
      exact absurd h (by simp)
    · rw [hsb] at h
      simp only [Except.ok.injEq, Prod.mk.injEq] at h
      obtain ⟨-, hacc⟩ := h
      subst hacc
      have hs := startBlock_inv acc k b acc1 hInv hk (hstop hns) hsb
      exact ⟨hs.1, b, hs.2.1, hs.2.2.1⟩
  · rw [if_neg hns] at h
    simp only [Except.ok.injEq, Prod.mk.injEq] at h
    obtain ⟨-, hacc⟩ := h
    subst hacc
    refine ⟨hInv, ?_⟩
    unfold needStartBlock at hns
    rw [getCurrentBlock_of_aligned acc hInv.1] at hns
    rcases hlast : acc.contentBlocks.getLast? with _ | b
    · rw [hlast] at hns
      simp at hns
    · rw [hlast] at hns
      simp at hns
      exact ⟨b, rfl, hns⟩

/-- `appendAndEmit` keeps the invariant and preserves the type and stop flag
of the last block. -/
theorem appendAndEmit_inv (acc : DeltaAccumulator) (d : String)
    (mk : Int → String → DownstreamEvent) (r : Except String (List DownstreamEvent))
    (acc' : DeltaAccumulator) (hInv : Inv acc) (h : appendAndEmit acc d mk = (r, acc')) :
    Inv acc' ∧
    acc'.contentBlocks.getLast?.map (fun b => (b.type, b.stopped)) =
      acc.contentBlocks.getLast?.map (fun b => (b.type, b.stopped)) := by
  unfold appendAndEmit at h
  rcases hadd : acc.addDelta d with e | a
  · rw [hadd] at h
    simp only [Prod.mk.injEq] at h
    rw [← h.2]
    exact ⟨hInv, rfl⟩
  · rw [hadd] at h
    have ha := addDelta_inv acc d a hInv hadd
    dsimp only at h
    rcases hcur : a.getCurrentBlock with _ | b <;> rw [hcur] at h <;>
      simp only [Prod.mk.injEq] at h <;> rw [← h.2] <;> exact ha

/-- `closeThinkingIfOpen` keeps the invariant; afterwards a thinking last
block is stopped, and no open text block appears that was not already
there. -/
theorem closeThinkingIfOpen_inv (hashFn : String → String) (now : Nat)
    (acc : DeltaAccumulator) (evs : List DownstreamEvent) (acc' : DeltaAccumulator)
    (hInv : Inv acc) (h : closeThinkingIfOpen hashFn now acc = (evs, acc')) :
    Inv acc' ∧
    (∀ lb', acc'.contentBlocks.getLast? = some lb' → lb'.type = .thinking →
      lb'.stopped = true) ∧
    (LastOpenText acc' → LastOpenText acc) := by
  unfold closeThinkingIfOpen at h
  rw [getCurrentBlock_of_aligned acc hInv.1] at h
  rcases hlast : acc.contentBlocks.getLast? with _ | b
  · rw [hlast] at h
    simp only [Prod.mk.injEq] at h
    rw [← h.2]
    refine ⟨hInv, ?_, id⟩
    intro lb' hlb'
    rw [hlast] at hlb'
    exact absurd hlb' (by simp)
  · rw [hlast] at h
    dsimp only at h
    by_cases hcond : b.type = .thinking ∧ ¬b.stopped = true
    · rw [if_pos hcond] at h
      simp only [Prod.mk.injEq] at h
      rw [← h.2]
      have hs := stopCurrentBlock_inv acc hInv
      have hlast' := hs.2.1 b hlast
      refine ⟨hs.1, ?_, ?_⟩
      · intro lb' hlb' _
        rw [hlast'] at hlb'
        have : { b with stopped := true } = lb' := by simpa using hlb'
        rw [← this]
      · rintro ⟨b', hb', -, hb's⟩
        rw [hlast'] at hb'
        have : { b with stopped := true } = b' := by simpa using hb'
        rw [← this] at hb's
        simp at hb's
    · rw [if_neg hcond] at h
      simp only [Prod.mk.injEq] at h
      rw [← h.2]
      refine ⟨hInv, ?_, id⟩
      intro lb' hlb' hlb't
      rw [hlast] at hlb'
      have hbb : b = lb' := by simpa using hlb'
      subst hbb
      by_contra hns
      exact hcond ⟨hlb't, by simpa using hns⟩

/-- The reasoning branch keeps the invariant provided no text block is left
open when reasoning text arrives; afterwards no open text block remains. -/
theorem reasoningBranch_inv (hashFn : String → String) (now : Nat)
    (delta : OpenAIDelta) (acc : DeltaAccumulator) (hInv : Inv acc)
    (hsafe : jsTruthyStr delta.reasoning_content = true → ¬LastOpenText acc) :
    Inv (reasoningBranch hashFn now delta acc).2 ∧
    (LastOpenText (reasoningBranch hashFn now delta acc).2 → LastOpenText acc) := by
  cases hrc : delta.reasoning_content with
  | none =>
    rw [reasoningBranch_skip hashFn now delta acc (by simp [jsTruthyStr, hrc])]
    exact ⟨hInv, id⟩
  | some rc =>
    by_cases hrce : rc = ""
    · rw [reasoningBranch_skip hashFn now delta acc (by simp [jsTruthyStr, hrc, hrce])]
      exact ⟨hInv, id⟩
    · have hnlot : ¬LastOpenText acc := hsafe (by simp [jsTruthyStr, hrc, hrce])
      have hstop : needStartBlock acc .thinking = true →
          ∀ lb, acc.contentBlocks.getLast? = some lb → lb.stopped = true := by
        intro hns lb hlb
        unfold needStartBlock at hns
        rw [getCurrentBlock_of_aligned acc hInv.1, hlb] at hns
        simp at hns
        have hmem := List.mem_of_mem_getLast? hlb
        have hnt := hInv.2.2 lb hmem
        cases hlbt : lb.type with
        | thinking => exact absurd hlbt hns
        | tool_use => exact absurd hlbt hnt
        | text =>
          by_contra hstop'
          exact hnlot ⟨lb, hlb, hlbt, by simpa using hstop'⟩
      unfold reasoningBranch
      rw [hrc]
      dsimp only
      rw [if_neg hrce]
      rcases heb : ensureBlock acc .thinking (needStartBlock acc .thinking) with e | ⟨sEvs, acc1⟩
      · exact ⟨hInv, id⟩
      · obtain ⟨hInv1, lb1, hlb1, hlb1t⟩ :=
          ensureBlock_inv acc .thinking sEvs acc1 hInv (by simp) hstop heb
        dsimp only
        rcases happ : appendAndEmit acc1 rc
            (fun i s => DownstreamEvent.content_block_delta_thinking i s) with ⟨r, acc2⟩
        have ha := appendAndEmit_inv acc1 rc _ r acc2 hInv1 happ
        have hnlot2 : ¬LastOpenText acc2 := by
          rintro ⟨b2, hb2, hb2t, -⟩
          have hmap := ha.2
          rw [hb2, hlb1] at hmap
          simp only [Option.map_some', Option.some.injEq, Prod.mk.injEq] at hmap
          rw [hlb1t] at hmap
          rw [hb2t] at hmap
          exact absurd hmap.1 (by simp)
        rcases r with e | devs <;>
          exact ⟨ha.1, fun h => absurd h hnlot2⟩

/-- The text branch keeps the invariant unconditionally: it closes an open
thinking block before opening the text block. -/
theorem textBranch_inv (hashFn : String → String) (now : Nat)
    (delta : OpenAIDelta) (acc : DeltaAccumulator) (hInv : Inv acc) :
    Inv (textBranch hashFn now delta acc).2 := by
  cases hct : delta.content with
  | none =>
    rw [textBranch_skip hashFn now delta acc (by simp [jsTruthyStr, hct])]
    exact hInv
  | some tc =>
    by_cases htce : tc = ""
    · rw [textBranch_skip hashFn now delta acc (by simp [jsTruthyStr, hct, htce])]
      exact hInv
    · unfold textBranch
      rw [hct]
      dsimp only
      rw [if_neg htce]
      rcases hclose : closeThinkingIfOpen hashFn now acc with ⟨cEvs, acc1⟩
      obtain ⟨hInv1, hthink, -⟩ :=
        closeThinkingIfOpen_inv hashFn now acc cEvs acc1 hInv hclose
      dsimp only
      have hstop : needStartBlock acc1 .text = true →
          ∀ lb, acc1.contentBlocks.getLast? = some lb → lb.stopped = true := by
        intro hns lb hlb
        unfold needStartBlock at hns
        rw [getCurrentBlock_of_aligned acc1 hInv1.1, hlb] at hns
        simp at hns
        have hmem := List.mem_of_mem_getLast? hlb
        have hnt := hInv1.2.2 lb hmem
        cases hlbt : lb.type with
        | text => exact absurd hlbt hns
        | tool_use => exact absurd hlbt hnt
        | thinking => exact hthink lb hlb hlbt
      rcases heb : ensureBlock acc1 .text (needStartBlock acc1 .text) with e | ⟨sEvs, acc2⟩
      · exact hInv1
      · obtain ⟨hInv2, -⟩ := ensureBlock_inv acc1 .text sEvs acc2 hInv1 (by simp) hstop heb
        dsimp only
        rcases happ : appendAndEmit acc2 tc
            (fun i s => DownstreamEvent.content_block_delta_text i s) with ⟨r, acc3⟩
        have ha := appendAndEmit_inv acc2 tc _ r acc3 hInv2 happ
        rcases r with e | devs <;> exact ha.1

/-- `finalizeDelta` keeps the invariant and opens no text block. -/
theorem finalizeDelta_inv (hashFn : String → String) (now : Nat)
    (acc : DeltaAccumulator) (hInv : Inv acc) :
    Inv (finalizeDelta hashFn now acc).2 ∧
    (LastOpenText (finalizeDelta hashFn now acc).2 → LastOpenText acc) := by
  unfold finalizeDelta
  by_cases hf : acc.finalized = true
  · simp only [hf, if_true]
    exact ⟨hInv, id⟩
  · simp only [hf, Bool.false_eq_true, if_false]
    rw [getCurrentBlock_of_aligned acc hInv.1]
    rcases hlast : acc.contentBlocks.getLast? with _ | b
    · dsimp only
      refine ⟨inv_congr acc _ rfl rfl hInv, ?_⟩
      intro h
      exact lastOpenText_congr acc _ rfl h
    · dsimp only
      by_cases hst : b.stopped
      · simp only [hst, not_true, if_neg, Bool.not_true]
        refine ⟨inv_congr acc _ rfl rfl hInv, ?_⟩
        intro h
        exact lastOpenText_congr acc _ rfl h
      · have hbf : b.stopped = false := by simpa using hst
        simp only [hbf, Bool.false_eq_true, not_false_eq_true, if_true]
        have hs := stopCurrentBlock_inv acc hInv
        have hlast' := hs.2.1 b hlast
        refine ⟨inv_congr acc.stopCurrentBlock _ rfl rfl hs.1, ?_⟩
        rintro ⟨b', hb', -, hb's⟩
        dsimp only at hb'
        rw [hlast'] at hb'
        have : { b with stopped := true } = b' := by simpa using hb'
        rw [← this] at hb's
        simp at hb's

/-- One `transformDelta` step keeps the invariant provided the event does
not deliver reasoning text onto an open text block; an open text block in
the result was already there unless this event carried answer text. -/
theorem transformDelta_inv (hashFn : String → String) (now : Nat)
    (ev : UpstreamEvent EventData) (acc : DeltaAccumulator) (hInv : Inv acc)
    (hsafe : eventHasReasoning ev = true → ¬LastOpenText acc) :
    Inv (transformDelta hashFn now ev acc).2 ∧
    (LastOpenText (transformDelta hashFn now ev acc).2 →
      LastOpenText acc ∨ eventHasText ev = true) := by
  unfold transformDelta
  by_cases hdone : ev.event = "done"
  · simp only [hdone, if_true]
    rcases hfin : finalizeDelta hashFn now acc with ⟨fEvs, accf⟩
    have hf := finalizeDelta_inv hashFn now acc hInv
    rw [hfin] at hf
    exact ⟨hf.1, fun h => .inl (hf.2 h)⟩
  · rw [if_neg hdone]
    cases hd : ev.data with
    | none => exact ⟨hInv, fun h => .inl h⟩
    | some data =>
      dsimp only
      cases hch : data.choices.head? with
      | none => exact ⟨hInv, fun h => .inl h⟩
      | some choice =>
        dsimp only
        cases hdel : choice.delta with
        | none => exact ⟨hInv, fun h => .inl h⟩
        | some delta =>
          dsimp only
          have her : eventHasReasoning ev = jsTruthyStr delta.reasoning_content := by
            simp [eventHasReasoning, effectiveDelta, hdone, hd, hch, hdel]
          have het : eventHasText ev = jsTruthyStr delta.content := by
            simp [eventHasText, effectiveDelta, hdone, hd, hch, hdel]
          rcases hms : messageStartStep acc data with ⟨sEvs, acc0⟩
          have hblocks0 : acc0.contentBlocks = acc.contentBlocks ∧
              acc0.currentBlockIndex = acc.currentBlockIndex := by
            have h := messageStartStep_blocks acc data
            rw [hms] at h
            exact h
          have hblocks1 : (roleStep acc0 delta).contentBlocks = acc.contentBlocks ∧
              (roleStep acc0 delta).currentBlockIndex = acc.currentBlockIndex := by
            have h := roleStep_blocks acc0 delta
            exact ⟨h.1.trans hblocks0.1, h.2.trans hblocks0.2⟩
          have hInv1 : Inv (roleStep acc0 delta) :=
            inv_congr acc _ hblocks1.1 hblocks1.2 hInv
          have hsafe1 : jsTruthyStr delta.reasoning_content = true →
              ¬LastOpenText (roleStep acc0 delta) := by
            intro hr hl
            exact hsafe (her.trans hr) (lastOpenText_congr acc _ hblocks1.1 hl)
          dsimp only
          rcases hrb : reasoningBranch hashFn now delta (roleStep acc0 delta) with ⟨r2, acc2⟩
          have hr := reasoningBranch_inv hashFn now delta (roleStep acc0 delta) hInv1 hsafe1
          rw [hrb] at hr
          dsimp only at hr
          rcases r2 with e | rEvs
          · exact ⟨hr.1, fun h => .inl (lastOpenText_congr acc _ hblocks1.1 (hr.2 h))⟩
          · dsimp only
            rcases htb : textBranch hashFn now delta acc2 with ⟨r3, acc3⟩
            have ht := textBranch_inv hashFn now delta acc2 hr.1
            rw [htb] at ht
            have hprop3 : LastOpenText acc3 → LastOpenText acc ∨ eventHasText ev = true := by
              intro hl
              by_cases hctc : jsTruthyStr delta.content = true
              · right
                rw [het]
                exact hctc
              · left
                have hskip := textBranch_skip hashFn now delta acc2 (by simpa using hctc)
                rw [hskip] at htb
                have hacc23 : acc2 = acc3 := congrArg Prod.snd htb
                rw [← hacc23] at hl
                exact lastOpenText_congr acc _ hblocks1.1 (hr.2 hl)
            rcases r3 with e | tEvs
            · exact ⟨ht, hprop3⟩
            · dsimp only
              have hblocks4 : (finishStep (usageStep acc3 data) choice).contentBlocks =
                  acc3.contentBlocks ∧
                  (finishStep (usageStep acc3 data) choice).currentBlockIndex =
                  acc3.currentBlockIndex := by
                have h1 := usageStep_blocks acc3 data
                have h2 := finishStep_blocks (usageStep acc3 data) choice
                exact ⟨h2.1.trans h1.1, h2.2.trans h1.2⟩
              exact ⟨inv_congr acc3 _ hblocks4.1 hblocks4.2 ht,
                     fun h => hprop3 (lastOpenText_congr acc3 _ hblocks4.1 h)⟩

/-- Processing a stream in which no event after a text-carrying event
carries reasoning keeps the invariant from any invariant state without an
open text block promised against the remaining events. -/
theorem runDeltas_inv (hashFn : String → String) (now : Nat) :
    ∀ (evs : List (UpstreamEvent EventData)) (acc : DeltaAccumulator), Inv acc →
    List.Pairwise (fun a b => eventHasText a = true → eventHasReasoning b = false) evs →
    (LastOpenText acc → ∀ e ∈ evs, eventHasReasoning e = false) →
    Inv (runDeltas hashFn now evs acc) := by
  intro evs
  induction evs with
  | nil =>
    intro acc hInv _ _
    exact hInv
  | cons e rest ih =>
    intro acc hInv hpw hlot
    have hsafe : eventHasReasoning e = true → ¬LastOpenText acc := by
      intro hr hl
      have h := hlot hl e (List.mem_cons_self e rest)
      rw [hr] at h
      exact absurd h (by simp)
    have hstep := transformDelta_inv hashFn now e acc hInv hsafe
    unfold runDeltas
    rcases htd : transformDelta hashFn now e acc with ⟨r, acc'⟩
    rw [htd] at hstep
    rcases r with e' | evs'
    · exact hstep.1
    · apply ih acc' hstep.1 (List.pairwise_cons.mp hpw).2
      intro hl e'' he''
      rcases hstep.2 hl with hlacc | htext
      · exact hlot hlacc e'' (List.mem_cons_of_mem e he'')
      · exact (List.pairwise_cons.mp hpw).1 e'' he'' htext

/-- C1 counterexample: an answer-text delta followed by a reasoning delta
leaves TWO open blocks — the reasoning branch starts a new thinking block
without stopping the open text block — so the claim fails for interleavings
in which reasoning follows answer text. -/
theorem exclusive_open_block_counterexample :
    openCount (runDeltas (fun _ => "") 0 [mkTextEvent "a", mkReasoningEvent "b"]
      (mkDeltaAccumulator "m")) = 2 ∧
    ¬(openCount (runDeltas (fun _ => "") 0 [mkTextEvent "a", mkReasoningEvent "b"]
      (mkDeltaAccumulator "m")) ≤ 1) := by
  constructor
  · rfl
  · decide

/-- C1 amended: for every upstream event sequence in which no event after an
answer-text-carrying event carries reasoning text (in particular every
stream where all reasoning precedes the answer), at most one content block
in the accumulator is open — started and not stopped — after the sequence
is processed from a fresh accumulator. The admissible sequences are closed
under taking prefixes, so this bounds the open blocks at every intermediate
point of such a stream. -/
theorem exclusive_open_block_amended (hashFn : String → String) (now : Nat)
    (msgId : String) (optB optS : Option Nat) (evs : List (UpstreamEvent EventData))
    (hord : List.Pairwise
      (fun a b => eventHasText a = true → eventHasReasoning b = false) evs) :
    openCount (runDeltas hashFn now evs (mkDeltaAccumulator msgId optB optS)) ≤ 1 :=
  openCount_le_one_of_inv _
    (runDeltas_inv hashFn now evs (mkDeltaAccumulator msgId optB optS)
      (inv_mk msgId optB optS) hord
      (fun h => absurd h (not_lastOpenText_mk msgId optB optS)))

/-- Witness for C1 (amended): the reasoning-then-text stream of Scenario A
shape satisfies the ordering condition and ends with one open block at
most. -/
theorem exclusive_open_block_amended_witness :
    openCount (runDeltas (fun _ => "") 0 [mkReasoningEvent "a", mkTextEvent "b"]
      (mkDeltaAccumulator "m" none none)) ≤ 1 :=
  exclusive_open_block_amended (fun _ => "") 0 "m" none none
    [mkReasoningEvent "a", mkTextEvent "b"] (by decide)

end CCS
